import Mathlib

/-!
A verification development for the PDF-content-extractor repository's two
structural extractors (`toc_extractor.py` and `component_extractor.py`).

The Python sources are shallowly embedded: each regular expression is
transliterated into a small regex AST evaluated by a backtracking matcher
whose result order mirrors CPython's `re` backtracking priority (first
result = the match `re.match` returns), Python string helpers are modelled
directly, and the stateful extraction loops become explicit folds.
Operations that can raise in Python are modelled with `Except`.
-/

deriving instance DecidableEq for Except

namespace PdfExtract

/-! ## Python string primitives -/

/-- Whitespace characters recognised by Python's `str.strip` / regex `\s`
for the ASCII range (the sources only process ASCII-ish text). -/
def pyWs (c : Char) : Bool :=
  c = ' ' || c = '\t' || c = '\n' || c = '\r' || c = '\x0b' || c = '\x0c'

/-- Python `str.lstrip()`. -/
def pyLstripL (s : List Char) : List Char := s.dropWhile pyWs

/-- Python `str.rstrip()`. -/
def pyRstripL (s : List Char) : List Char := (s.reverse.dropWhile pyWs).reverse

/-- Python `str.strip()`. -/
def pyStripL (s : List Char) : List Char := pyLstripL (pyRstripL s)

def pyLstrip (s : String) : String := ⟨pyLstripL s.data⟩

def pyRstrip (s : String) : String := ⟨pyRstripL s.data⟩

def pyStrip (s : String) : String := ⟨pyStripL s.data⟩

/-- Python `text.split(sep)` for a one-character separator: no run
collapsing, `"".split(c) == [""]`. -/
def pySplitChar (s : List Char) (sep : Char) : List (List Char) :=
  match s with
  | [] => [[]]
  | c :: rest =>
    let r := pySplitChar rest sep
    if c = sep then
      [] :: r
    else
      match r with
      | [] => [[c]]
      | g :: gs => (c :: g) :: gs

def pySplit (s : String) (sep : Char) : List String :=
  (pySplitChar s.data sep).map (⟨·⟩)

/-- Python `str.split()` with no argument: split on whitespace runs,
dropping empty pieces. -/
def pySplitWsL (s : List Char) : List (List Char) :=
  match s with
  | [] => []
  | c :: rest =>
    let r := pySplitWsL rest
    if pyWs c then r
    else
      match s, r with
      | _, [] => [[c]]
      | _ :: c2 :: _, g :: gs => if pyWs c2 then [c] :: g :: gs else (c :: g) :: gs
      | _, g :: gs => (c :: g) :: gs

def pySplitWs (s : String) : List String := (pySplitWsL s.data).map (⟨·⟩)

/-- Python `' '.join(xs)`-style join. -/
def pyJoin (sep : String) : List String → String
  | [] => ""
  | [x] => x
  | x :: xs => x ++ sep ++ pyJoin sep xs

/-- Value of a list of decimal digits. -/
def digitsVal (s : List Char) : Nat :=
  s.foldl (fun acc c => acc * 10 + (c.toNat - '0'.toNat)) 0

/-- Python `int(s)`: strips surrounding whitespace, allows an optional
sign, then requires a non-empty digit run.  (CPython additionally accepts
underscore digit separators and non-ASCII digits; no input reached by the
claims contains those, so they are not modelled.) -/
def pyInt (s : String) : Option Int :=
  match pyStripL s.data with
  | [] => none
  | c :: ds =>
    if c = '+' then
      if ds ≠ [] ∧ ds.all Char.isDigit then some (digitsVal ds) else none
    else if c = '-' then
      if ds ≠ [] ∧ ds.all Char.isDigit then some (-(digitsVal ds : Int)) else none
    else if (c :: ds).all Char.isDigit then some (digitsVal (c :: ds)) else none

/-- Python `xs.startswith(p)` on lists. -/
def leadsWithL : List Char → List Char → Bool
  | [], _ => true
  | _ :: _, [] => false
  | p :: ps, c :: cs => p = c && leadsWithL ps cs

/-- Python `s.startswith(p)`. -/
def pyStartswith (s p : String) : Bool := leadsWithL p.data s.data

/-- Python substring containment `sub in s`. -/
def occursInL (sub : List Char) : List Char → Bool
  | [] => leadsWithL sub []
  | c :: cs => leadsWithL sub (c :: cs) || occursInL sub cs

def pyContains (s sub : String) : Bool := occursInL sub.data s.data

/-- Python `s.lower()` (ASCII). -/
def pyLower (s : String) : String := ⟨s.data.map Char.toLower⟩

/-- Python `s.count(c)` for a single character. -/
def pyCountChar (s : String) (c : Char) : Nat := s.data.count c

/-- Python `range(a, b)` over integers, as a list. -/
def intRange (a b : Int) : List Int :=
  (List.range (b - a).toNat).map (fun i => a + (i : Int))

/-! ## A backtracking regex engine

The AST covers exactly the constructs used by the extractor patterns.
`reMatches` returns every way the expression can match a prefix of the
input, ordered by CPython backtracking priority (greedy alternatives
first where the source regex is greedy, the no-iteration case first for
lazy quantifiers, left alternative before right).  The head of the list
is therefore the match `re.match` produces.  Captures record the most
recent text bound to each named group, later bindings listed first. -/

inductive RE where
  | eps : RE
  | cls : (Char → Bool) → RE
  | seq : RE → RE → RE
  | alt : RE → RE → RE
  | opt : Bool → RE → RE      -- `e?`; the Bool is `greedy`
  | star : Bool → RE → RE     -- `e*`; the Bool is `greedy`
  | group : String → RE → RE  -- named capturing group
  | eol : RE                  -- `$` (end of input; split lines contain no newline)

abbrev Caps := List (String × String)

/-- All ways to iterate a sub-matcher zero or more times.  A zero-width
body match ends the iteration, as in CPython's engine.  The fuel
argument makes the recursion structural (so proofs can evaluate it):
every iteration strictly shrinks the input, so a fuel of
`input length + 1` is never exhausted. -/
def starAux (f : List Char → Caps → List (Caps × List Char)) (greedy : Bool) :
    Nat → List Char → Caps → List (Caps × List Char)
  | 0, s, caps => [(caps, s)]
  | fuel + 1, s, caps =>
    let iter :=
      (f s caps).flatMap fun p =>
        if p.2.length < s.length then starAux f greedy fuel p.2 p.1 else []
    if greedy then iter ++ [(caps, s)] else (caps, s) :: iter

/-- All prefix matches of `r` against `s`, in backtracking priority
order, threading named-group captures. -/
def reMatches : RE → List Char → Caps → List (Caps × List Char)
  | .eps, s, caps => [(caps, s)]
  | .cls p, s, caps =>
    match s with
    | [] => []
    | c :: rest => if p c then [(caps, rest)] else []
  | .seq a b, s, caps =>
    (reMatches a s caps).flatMap fun p => reMatches b p.2 p.1
  | .alt a b, s, caps => reMatches a s caps ++ reMatches b s caps
  | .opt greedy r, s, caps =>
    if greedy then reMatches r s caps ++ [(caps, s)]
    else (caps, s) :: reMatches r s caps
  | .group n r, s, caps =>
    (reMatches r s caps).map fun p =>
      ((n, ⟨s.take (s.length - p.2.length)⟩) :: p.1, p.2)
  | .eol, s, caps => if s.isEmpty then [(caps, s)] else []
  | .star greedy r, s, caps =>
    starAux (fun t c => reMatches r t c) greedy (s.length + 1) s caps

/-- Models `re.match(r, s)`: anchored at the start, need not consume the whole
input; returns the captures and the unconsumed suffix of the first match. -/
def reMatchFull (r : RE) (s : String) : Option (Caps × List Char) :=
  (reMatches r s.data []).head?

/-- Result of `re.match` reduced to its captures. -/
def reMatch (r : RE) (s : String) : Option Caps :=
  (reMatchFull r s).map Prod.fst

/-- Value of group `n` in a match result: `None` when the group did not
participate in the match (as in `match.groupdict()`). -/
def capGet (caps : Caps) (n : String) : Option String :=
  (caps.find? (fun p => p.1 = n)).map Prod.snd

/-- Models `re.search(r, s)`: the match at the leftmost position where one
exists, together with that start position. -/
def reSearchAux (r : RE) (pos : Nat) : List Char → Option (Nat × Caps)
  | [] =>
    match reMatches r [] [] with
    | p :: _ => some (pos, p.1)
    | [] => none
  | c :: rest =>
    match reMatches r (c :: rest) [] with
    | p :: _ => some (pos, p.1)
    | [] => reSearchAux r (pos + 1) rest

def reSearch (r : RE) (s : String) : Option (Nat × Caps) :=
  reSearchAux r 0 s.data

/-- Models `re.sub(r, repl, s)` with a literal replacement: global scan, on a
zero-width match the replacement is emitted and one character copied
(pattern bodies used by the source always consume, so that branch is
never taken on source inputs). -/
def reSubAux (r : RE) (repl : List Char) : Nat → List Char → List Char
  | 0, s => s
  | fuel + 1, s =>
    match reMatches r s [] with
    | p :: _ =>
      if p.2.length < s.length then repl ++ reSubAux r repl fuel p.2
      else
        match s with
        | [] => repl
        | c :: rest => repl ++ c :: reSubAux r repl fuel rest
    | [] =>
      match s with
      | [] => []
      | c :: rest => c :: reSubAux r repl fuel rest

def reSubL (r : RE) (repl : List Char) (s : List Char) : List Char :=
  reSubAux r repl (s.length + 1) s

def reSub (r : RE) (repl s : String) : String := ⟨reSubL r repl.data s.data⟩

/-! ### Smart constructors mirroring regex syntax -/

/-- A literal character. -/
def REc (c : Char) : RE := .cls (· = c)

/-- A literal string. -/
def REstr (s : String) : RE := s.data.foldr (fun c r => .seq (REc c) r) .eps

/-- Greedy `e+`. -/
def REplus (r : RE) : RE := .seq r (.star true r)

/-- Greedy `e{n,}`. -/
def REatLeast : Nat → RE → RE
  | 0, r => .star true r
  | n + 1, r => .seq r (REatLeast n r)

/-- Sequence of several expressions. -/
def REcat (rs : List RE) : RE := rs.foldr .seq .eps

/-- Class `\d`. -/
def REd : RE := .cls Char.isDigit

/-- Class `\s`. -/
def REs : RE := .cls pyWs

/-- Class `\S`. -/
def REns : RE := .cls (fun c => !pyWs c)

/-- Class `.` without DOTALL: anything but a newline. -/
def REany : RE := .cls (· ≠ '\n')

/-- Lazy `.*?`. -/
def REanyLazy : RE := .star false REany

/-! ## TOC extractor data model (`toc_extractor.py`)

`TOCEntry.__init__` strips the title.  `children` lists are represented
arena-style: the hierarchy pass returns root positions and a
position-indexed children table, mirroring the Python object graph in
which parents hold references into the same entry pool. -/

structure TOCEntry where
  level : Nat
  title : String
  pageNum : Option Int
  rawText : String
deriving Repr, DecidableEq

def mkTOCEntry (level : Nat) (title : String) (pageNum : Option Int)
    (rawText : String) : TOCEntry :=
  ⟨level, pyStrip title, pageNum, rawText⟩

/-- The TOC pattern list of `TOCExtractor._compile_toc_patterns`, in
source order.

1. `(?P<prefix>(?:\d+\.)+\s*)?(?P<title>.*?)\.{2,}(?P<page>\d+)$`
2. `(?P<prefix>(?:(?:Chapter|Section|Part)\s+)?\d+\.?\s+)?(?P<title>.*?)\s+(?P<page>\d+)$`
3. `(?P<prefix>[IVXivx]+\.?\s+)?(?P<title>.*?)\s+(?P<page>\d+)$`
4. `(?P<prefix>[A-Z](?:\.\d+)+\s+)?(?P<title>.*?)\s+(?P<page>\d+)$`
5. `^(?P<indent>\s{2,})(?P<title>.*?)\.{2,}(?P<page>\d+)$`
6. `^(?P<indent>\s{2,})(?P<title>.*?)\s+(?P<page>\d+)$` -/
def tocPat1 : RE :=
  REcat [.opt true (.group "prefix" (.seq (REplus (.seq (REplus REd) (REc '.')))
           (.star true REs))),
         .group "title" REanyLazy,
         REatLeast 2 (REc '.'),
         .group "page" (REplus REd),
         .eol]

def tocPat2 : RE :=
  REcat [.opt true (.group "prefix"
           (REcat [.opt true (.seq (.alt (REstr "Chapter")
                     (.alt (REstr "Section") (REstr "Part"))) (REplus REs)),
                   REplus REd, .opt true (REc '.'), REplus REs])),
         .group "title" REanyLazy,
         REplus REs,
         .group "page" (REplus REd),
         .eol]

def romanChar (c : Char) : Bool :=
  c = 'I' || c = 'V' || c = 'X' || c = 'i' || c = 'v' || c = 'x'

def tocPat3 : RE :=
  REcat [.opt true (.group "prefix"
           (REcat [REplus (.cls romanChar), .opt true (REc '.'), REplus REs])),
         .group "title" REanyLazy,
         REplus REs,
         .group "page" (REplus REd),
         .eol]

def upperChar (c : Char) : Bool := 'A' ≤ c ∧ c ≤ 'Z'

def tocPat4 : RE :=
  REcat [.opt true (.group "prefix"
           (REcat [.cls upperChar, REplus (.seq (REc '.') (REplus REd)), REplus REs])),
         .group "title" REanyLazy,
         REplus REs,
         .group "page" (REplus REd),
         .eol]

def tocPat5 : RE :=
  REcat [.group "indent" (REatLeast 2 REs),
         .group "title" REanyLazy,
         REatLeast 2 (REc '.'),
         .group "page" (REplus REd),
         .eol]

def tocPat6 : RE :=
  REcat [.group "indent" (REatLeast 2 REs),
         .group "title" REanyLazy,
         REplus REs,
         .group "page" (REplus REd),
         .eol]

def tocPatterns : List RE := [tocPat1, tocPat2, tocPat3, tocPat4, tocPat5, tocPat6]

/-- The body of pattern 1's optional prefix group, `(?:\d+\.)+\s*`. -/
def tocP1PfxBody : RE :=
  .seq (REplus (.seq (REplus REd) (REc '.'))) (.star true REs)

/-- The tail of pattern 1 after the title group: `\.{2,}(?P<page>\d+)$`. -/
def tocP1Rest : RE :=
  REcat [REatLeast 2 (REc '.'), .group "page" (REplus REd), .eol]

/-- The last-resort pattern of `_parse_toc_line`: `(\S+)\s+(\d+)$`
(used with `re.search`). -/
def tocLastResort : RE :=
  REcat [.group "g1" (REplus REns), REplus REs, .group "g2" (REplus REd), .eol]

/-- One iteration of the pattern loop in `_parse_toc_line`: on a match,
extract title/page/level; an empty stripped title falls through to the
next pattern. -/
def tocEntryOfMatch (line : String) (caps : Caps) : Option TOCEntry :=
  let title := pyStrip ((capGet caps "title").getD "")
  let pageNum : Option Int :=
    match capGet caps "page" with
    | some p => pyInt p
    | none => none
  let level : Nat :=
    if (capGet caps "prefix").getD "" ≠ "" then
      let pfx := pyStrip ((capGet caps "prefix").getD "")
      let lv := pyCountChar pfx '.'
      if lv = 0 ∧ pfx ≠ "" then 1 else lv
    else if (capGet caps "indent").getD "" ≠ "" then
      ((capGet caps "indent").getD "").length / 2
    else 0
  if title ≠ "" then some (mkTOCEntry level title pageNum line) else none

/-- Models `TOCExtractor._parse_toc_line`. -/
def parseTocLine (line : String) : Option TOCEntry :=
  let viaPatterns :=
    tocPatterns.foldl
      (fun acc pat =>
        match acc with
        | some e => some e
        | none =>
          match reMatch pat line with
          | some caps => tocEntryOfMatch line caps
          | none => none)
      none
  match viaPatterns with
  | some e => some e
  | none =>
    match reSearch tocLastResort line with
    | some (start, caps) =>
      let title := pyStrip ⟨line.data.take start⟩
      let pageNum : Option Int :=
        match capGet caps "g2" with
        | some p => pyInt p
        | none => none
      let leadingSpaces := line.length - (pyLstrip line).length
      some (mkTOCEntry (leadingSpaces / 2) title pageNum line)
    | none => none

/-- The per-line step of the first pass of `_extract_toc`: blank lines
and lines whose stripped length is below 5 are skipped before any
pattern is tried. -/
def tocLineEntry (rawLine : String) : Option TOCEntry :=
  let line := pyRstrip rawLine
  if pyStrip line = "" then none
  else if (pyStrip line).length < 5 then none
  else parseTocLine line

/-- First pass of `_extract_toc` over the split lines. -/
def tocFirstPass (lines : List String) : List TOCEntry :=
  lines.filterMap tocLineEntry

/-- Python `list.index(x)` (equality-based; the entries carry no custom
`__eq__`, and the only call site applies this to an empty list, where
identity and structural equality agree).  The error string abbreviates
CPython's `ValueError: <x> is not in list`. -/
def pyIndexOf (xs : List TOCEntry) (x : TOCEntry) : Except String Nat :=
  match xs.indexOf? x with
  | some i => Except.ok i
  | none => Except.error "ValueError: x is not in list"

/-- The sort keys of `self.toc_entries.sort(key=lambda x: (x.level,
self.toc_entries.index(x)))`.  CPython's `list.sort` detaches the list's
storage (the list observes as empty) before evaluating the key function
on each element, so every `self.toc_entries.index(x)` call inside the
key runs against an empty list and raises `ValueError`. -/
def tocSortKeys (es : List TOCEntry) : Except String (List (Nat × Nat)) :=
  es.mapM fun e => (pyIndexOf [] e).map fun i => (e.level, i)

/-- Stable sort of the entries by the computed keys (only ever reached
with an empty entry list, since key computation raises otherwise). -/
def sortByKeys (es : List TOCEntry) (keys : List (Nat × Nat)) : List TOCEntry :=
  ((es.zip keys).mergeSort
      (fun a b => a.2.1 < b.2.1 ∨ (a.2.1 = b.2.1 ∧ a.2.2 ≤ b.2.2))).map Prod.fst

/-- A forest of TOC entries in arena representation: the entry pool, the
positions of the roots, and each position's child positions. -/
structure TocForest where
  entries : List TOCEntry
  roots : List Nat
  children : List (Nat × List Nat)
deriving Repr, DecidableEq

def emptyForest : TocForest := ⟨[], [], []⟩

/-- Association-list update used for `last_by_level[lvl] = entry` and
the children table: replace in place, else append. -/
def assocSet {α β : Type} [DecidableEq α] (m : List (α × β)) (k : α) (v : β) :
    List (α × β) :=
  match m with
  | [] => [(k, v)]
  | (k', v') :: rest => if k' = k then (k, v) :: rest else (k', v') :: assocSet rest k v

def assocGet {α β : Type} [DecidableEq α] (m : List (α × β)) (k : α) : Option β :=
  (m.find? (fun p => p.1 = k)).map Prod.snd

/-- The parent search of `_determine_hierarchy`: walk `parent_level`
from `level - 1` down to 0 looking for a recorded (non-`None`) entry. -/
def findParent (lastByLevel : List (Nat × Option Nat)) : Nat → Option Nat
  | 0 =>
    match assocGet lastByLevel 0 with
    | some (some i) => some i
    | _ => none
  | lvl + 1 =>
    match assocGet lastByLevel (lvl + 1) with
    | some (some i) => some i
    | _ => findParent lastByLevel lvl

/-- The hierarchy-building walk of `_determine_hierarchy` (the part after
the sort), over the entry pool with positions. -/
def buildHierarchy (es : List TOCEntry) : TocForest :=
  let step := fun (st : List Nat × List (Nat × Option Nat) × List (Nat × List Nat))
      (p : Nat × TOCEntry) =>
    let (roots, lastByLevel, children) := st
    let (i, e) := p
    if e.level = 0 then
      (roots ++ [i], assocSet lastByLevel 0 (some i), children)
    else
      let parent :=
        match e.level with
        | 0 => none
        | lvl + 1 => findParent lastByLevel lvl
      match parent with
      | some pi =>
        let cs := (assocGet children pi).getD []
        (roots, assocSet lastByLevel e.level (some i),
         assocSet children pi (cs ++ [i]))
      | none =>
        (roots ++ [i], assocSet lastByLevel e.level (some i), children)
  let init : List Nat × List (Nat × Option Nat) × List (Nat × List Nat) :=
    ([], [(0, none)], [])
  let fin := es.enum.foldl step init
  ⟨es, fin.1, fin.2.2⟩

/-- Models `TOCExtractor._determine_hierarchy`.  The sort-key computation raises
for every nonempty entry list (see `tocSortKeys`); the walk below it is
only ever reached with no entries. -/
def determineHierarchy (es : List TOCEntry) : Except String TocForest := do
  let keys ← tocSortKeys es
  pure (buildHierarchy (sortByKeys es keys))

/-- Models `TOCExtractor._extract_toc`: split, first pass, then the hierarchy
pass when any entry was found. -/
def extractToc (text : String) : Except String TocForest :=
  let flat := tocFirstPass (pySplit text '\n')
  if flat.isEmpty then Except.ok ⟨flat, [], []⟩
  else determineHierarchy flat

/-! ## Index extraction (`_extract_index`, `_parse_page_refs`) -/

/-- A page reference: an expanded integer, or a malformed token kept
verbatim as a string. -/
inductive PageRef where
  | num : Int → PageRef
  | str : String → PageRef
deriving Repr, DecidableEq

structure IndexEntry where
  term : String
  pageRefs : List PageRef
  subentries : List (String × List PageRef)
deriving Repr, DecidableEq

/-- Index pattern 1 (main entries):
`(?P<term>.*?),\s*(?P<pages>(?:\d+(?:-\d+)?(?:,\s*\d+(?:-\d+)?)*))$`. -/
def pagesRE : RE :=
  REcat [REplus REd, .opt true (.seq (REc '-') (REplus REd)),
         .star true (REcat [REc ',', .star true REs, REplus REd,
                            .opt true (.seq (REc '-') (REplus REd))])]

def indexPat1 : RE :=
  REcat [.group "term" REanyLazy, REc ',', .star true REs,
         .group "pages" pagesRE, .eol]

/-- Index pattern 2 (indented subentries):
`^\s{2,}(?P<subterm>.*?),\s*(?P<pages>...)$`. -/
def indexPat2 : RE :=
  REcat [REatLeast 2 REs, .group "subterm" REanyLazy, REc ',', .star true REs,
         .group "pages" pagesRE, .eol]

/-- Models `TOCExtractor._parse_page_refs`: comma-split, strip, expand `a-b`
ranges inclusively, keep malformed chunks verbatim. -/
def parsePageRefs (pagesStr : String) : List PageRef :=
  if pagesStr = "" then []
  else
    let chunks := (pySplit pagesStr ',').map pyStrip
    chunks.flatMap fun chunk =>
      if chunk.data.contains '-' then
        match pySplit chunk '-' with
        | [a, b] =>
          match pyInt a, pyInt b with
          | some x, some y => (intRange x (y + 1)).map PageRef.num
          | _, _ => [PageRef.str chunk]
        | _ => [PageRef.str chunk]
      else
        match pyInt chunk with
        | some n => [PageRef.num n]
        | none => if chunk ≠ "" then [PageRef.str chunk] else []

/-- The ordered-dictionary state of `_extract_index`: entries keyed by
term (`OrderedDict` keeps first-insertion position on overwrite), plus
the rolling `current_main_term`. -/
structure IndexState where
  entries : List IndexEntry
  currentMainTerm : Option String
deriving Repr, DecidableEq

/-- Assignment `self.index_entries[term] = IndexEntry(term, page_refs)`: replace in
place when the term exists, else append. -/
def indexInsert (es : List IndexEntry) (e : IndexEntry) : List IndexEntry :=
  match es with
  | [] => [e]
  | e' :: rest => if e'.term = e.term then e :: rest else e' :: indexInsert rest e

/-- Assignment `main_entry.subentries[subterm] = page_refs` on the entry stored for
`current_main_term`; the bare dict access raises `KeyError` when the
term is absent. -/
def indexAddSub (es : List IndexEntry) (term subterm : String)
    (refs : List PageRef) : Except String (List IndexEntry) :=
  match es with
  | [] => Except.error "KeyError"
  | e :: rest =>
    if e.term = term then
      Except.ok ({ e with subentries := assocSet e.subentries subterm refs } :: rest)
    else
      (indexAddSub rest term subterm refs).map (e :: ·)

/-- The per-line step of `_extract_index`. -/
def indexStep (st : IndexState) (rawLine : String) : Except String IndexState :=
  let line := pyRstrip rawLine
  if pyStrip line = "" then Except.ok st
  else
    match reMatch indexPat1 line with
    | some caps =>
      let term := pyStrip ((capGet caps "term").getD "")
      let pagesStr := (capGet caps "pages").getD ""
      if term ≠ "" then
        let refs := parsePageRefs pagesStr
        Except.ok ⟨indexInsert st.entries ⟨term, refs, []⟩, some term⟩
      else Except.ok st
    | none =>
      match st.currentMainTerm with
      | some cur =>
        if pyStartswith line " " then
          match reMatch indexPat2 line with
          | some caps =>
            let subterm := pyStrip ((capGet caps "subterm").getD "")
            let pagesStr := (capGet caps "pages").getD ""
            if subterm ≠ "" then
              (indexAddSub st.entries cur subterm (parsePageRefs pagesStr)).map
                (⟨·, st.currentMainTerm⟩)
            else Except.ok st
          | none => Except.ok st
        else Except.ok st
      | none => Except.ok st

/-- Models `TOCExtractor._extract_index`: fold the line step from a reset state
and return the entry list. -/
def extractIndexFull (text : String) : Except String IndexState :=
  (pySplit text '\n').foldlM indexStep ⟨[], none⟩

def extractIndex (text : String) : Except String (List IndexEntry) :=
  (extractIndexFull text).map (·.entries)

/-! ## Component extractor data model (`component_extractor.py`)

`Component.__init__` strips title and description; `category` is left at
its default (`None`) by every construction site in the extractor, so it
is omitted here.  Category membership lives in the category lists, which
in Python alias the flat component objects; membership is therefore
modelled by positions into the flat list. -/

structure Component where
  number : String
  title : String
  description : Option String
  rawText : String
deriving Repr, DecidableEq

def mkComponent (number title : String) (description : Option String)
    (rawText : String) : Component :=
  ⟨number, pyStrip title, description.map pyStrip, rawText⟩

/-- The component pattern list of `_compile_component_patterns`:

1. `^(?P<number>\d+)[.\)]\s+(?P<title>.+)$`
2. `^(?P<letter>[a-zA-Z])[.\)]\s+(?P<title>.+)$`
3. `^(?P<roman>[ivxIVX]+)[.\)]\s+(?P<title>.+)$`
4. `^\s+(?P<number>\d+)[.\)]\s+(?P<title>.+)$`
5. `^(?P<number>\d+)[.\)]\s+(?P<title>[^(]+)(?:\((?P<description>[^)]+)\))?`
6. `^(?P<number>\d+):\s+(?P<title>.+)$`
7. `^(?P<number>\d+)\s*-\s+(?P<title>.+)$`
8. `^(?P<number>\d+)[.\):](?P<title>.+)$` -/
def dotParen (c : Char) : Bool := c = '.' || c = ')'

def compPat1 : RE :=
  REcat [.group "number" (REplus REd), .cls dotParen, REplus REs,
         .group "title" (REplus REany), .eol]

def compPat2 : RE :=
  REcat [.group "letter" (.cls Char.isAlpha), .cls dotParen, REplus REs,
         .group "title" (REplus REany), .eol]

def compPat3 : RE :=
  REcat [.group "roman" (REplus (.cls romanChar)), .cls dotParen, REplus REs,
         .group "title" (REplus REany), .eol]

def compPat4 : RE :=
  REcat [REplus REs, .group "number" (REplus REd), .cls dotParen, REplus REs,
         .group "title" (REplus REany), .eol]

def compPat5 : RE :=
  REcat [.group "number" (REplus REd), .cls dotParen, REplus REs,
         .group "title" (REplus (.cls (· ≠ '('))),
         .opt true (REcat [REc '(',
                           .group "description" (REplus (.cls (· ≠ ')'))),
                           REc ')'])]

def compPat6 : RE :=
  REcat [.group "number" (REplus REd), REc ':', REplus REs,
         .group "title" (REplus REany), .eol]

def compPat7 : RE :=
  REcat [.group "number" (REplus REd), .star true REs, REc '-', REplus REs,
         .group "title" (REplus REany), .eol]

def dotParenColon (c : Char) : Bool := c = '.' || c = ')' || c = ':'

def compPat8 : RE :=
  REcat [.group "number" (REplus REd), .cls dotParenColon,
         .group "title" (REplus REany), .eol]

def compPatterns : List RE :=
  [compPat1, compPat2, compPat3, compPat4, compPat5, compPat6, compPat7, compPat8]

/-- The category pattern list of `_compile_category_patterns`:

1. `^(?P<category>[A-Z][A-Z\s]+):`
2. `^(?P<category>[A-Z][A-Z\s]+)$`
3. `^(?P<prefix>[IVX]+\.)\s*(?P<category>[A-Z][A-Z\s]+)` -/
def upperWs (c : Char) : Bool := upperChar c || pyWs c

def catBody : RE := .group "category" (.seq (.cls upperChar) (REplus (.cls upperWs)))

def catPat1 : RE := .seq catBody (REc ':')

def catPat2 : RE := .seq catBody .eol

def romanUpper (c : Char) : Bool := c = 'I' || c = 'V' || c = 'X'

def catPat3 : RE :=
  REcat [.group "prefix" (.seq (REplus (.cls romanUpper)) (REc '.')),
         .star true REs, catBody]

def categoryPatterns : List RE := [catPat1, catPat2, catPat3]

/-- Models `ComponentExtractor._match_category`: first pattern that matches;
returns the stripped `category` group. -/
def matchCategory (line : String) : Option String :=
  categoryPatterns.foldl
    (fun acc pat =>
      match acc with
      | some c => some c
      | none =>
        match reMatch pat line with
        | some caps => (capGet caps "category").map pyStrip
        | none => none)
    none

/-- The standalone-number pattern `^(\d+)[.\)]\s*$` (applied to the
stripped line). -/
def standaloneNumRE : RE :=
  REcat [.group "g1" (REplus REd), .cls dotParen, .star true REs, .eol]

/-- The fresh-component test `re.match(r'^\d+[.\)]\s+', line)` used when
deciding whether to merge a pending identifier. -/
def newCompRE : RE := REcat [REplus REd, .cls dotParen, REplus REs]

/-- Fallback 1 of `_parse_component_line`:
`^(\d+)[\.\s\)\:\-]+\s*(.+)$` on the stripped line. -/
def fbDelim (c : Char) : Bool := c = '.' || pyWs c || c = ')' || c = ':' || c = '-'

def compFallback1 : RE :=
  REcat [.group "g1" (REplus REd), REplus (.cls fbDelim), .star true REs,
         .group "g2" (REplus REany), .eol]

/-- Fallback 2: `^(\d+)[\.\s\)\:\-]*\s*(.*)$` on the stripped line. -/
def compFallback2 : RE :=
  REcat [.group "g1" (REplus REd), .star true (.cls fbDelim), .star true REs,
         .group "g2" (.star true REany), .eol]

/-- One iteration of the pattern loop of `_parse_component_line`.  The
`description` handling mirrors `groups.get('description', '').strip() if
'description' in groups else None`: only pattern 5 carries the key, and
an unmatched group there would be `None.strip()`, an `AttributeError`
(pattern 5 is shadowed by pattern 1, so this is unreachable on real
lines, but the possibility is modelled faithfully). -/
def compOfMatch (patIdx : Nat) (line : String) (caps : Caps) :
    Except String (Option Component) :=
  let number :=
    match capGet caps "number" with
    | some n => some n
    | none =>
      match capGet caps "letter" with
      | some l => some l
      | none => capGet caps "roman"
  let title := pyStrip ((capGet caps "title").getD "")
  if patIdx = 4 then
    match capGet caps "description" with
    | some d =>
      match number with
      | some n =>
        if n ≠ "" ∧ title ≠ "" then
          Except.ok (some (mkComponent n title (some d) line))
        else Except.ok none
      | none => Except.ok none
    | none => Except.error "AttributeError: NoneType has no attribute strip"
  else
    match number with
    | some n =>
      if n ≠ "" ∧ title ≠ "" then
        Except.ok (some (mkComponent n title none line))
      else Except.ok none
    | none => Except.ok none

/-- Models `ComponentExtractor._parse_component_line`: the eight patterns in
order, then the two permissive fallbacks on the stripped line. -/
def parseComponentLine (line : String) : Except String (Option Component) := do
  let viaPatterns ←
    compPatterns.enum.foldlM
      (fun acc p =>
        match acc with
        | some c => pure (some c)
        | none =>
          match reMatch p.2 line with
          | some caps => compOfMatch p.1 line caps
          | none => pure none)
      (none : Option Component)
  match viaPatterns with
  | some c => pure (some c)
  | none =>
    match reMatch compFallback1 (pyStrip line) with
    | some caps =>
      let number := (capGet caps "g1").getD ""
      let content := (capGet caps "g2").getD ""
      pure (some (mkComponent number (pyStrip content) none line))
    | none =>
      match reMatch compFallback2 (pyStrip line) with
      | some caps =>
        let number := (capGet caps "g1").getD ""
        let content := pyStrip ((capGet caps "g2").getD "")
        if content ≠ "" then pure (some (mkComponent number content none line))
        else pure none
      | none => pure none

/-- Loop state of `extract_components_from_text`: the flat component
list, the closed categories (members as positions into the flat list),
the open category header, its collected member positions, and the
pending identifier. -/
structure CompState where
  components : List Component
  categories : List (String × List Nat)
  currentCategory : Option String
  categoryComponents : List Nat
  pending : Option String
deriving Repr, DecidableEq

def initCompState : CompState := ⟨[], [], none, [], none⟩

/-- Append a freshly classified component, recording its position in the
open category when one exists. -/
def pushComponent (s : CompState) (c : Component) : CompState :=
  let idx := s.components.length
  { s with
    components := s.components ++ [c]
    categoryComponents :=
      if s.currentCategory.isSome then s.categoryComponents ++ [idx]
      else s.categoryComponents }

/-- The part of the loop body after the pending-identifier block:
category header, standalone number, component classification, else skip. -/
def compStepRest (s : CompState) (line : String) : Except String CompState :=
  match matchCategory line with
  | some cat =>
    let s :=
      if s.currentCategory.isSome ∧ s.categoryComponents ≠ [] then
        { s with categories :=
            s.categories ++ [((s.currentCategory.getD ""), s.categoryComponents)] }
      else s
    Except.ok { s with currentCategory := some cat, categoryComponents := [] }
  | none =>
    match reMatch standaloneNumRE (pyStrip line) with
    | some caps =>
      Except.ok { s with pending := capGet caps "g1" }
    | none => do
      match ← parseComponentLine line with
      | some c => pure (pushComponent s c)
      | none => pure s

/-- The pending-identifier merge: `Component(pending_number,
line.strip(), raw_text=f"{pending_number}. {line.strip()}")`. -/
def mergePending (s : CompState) (p : String) (line : String) : CompState :=
  let c := mkComponent p (pyStrip line) none (p ++ ". " ++ pyStrip line)
  { pushComponent s c with pending := none }

/-- One iteration of the `while` loop of `extract_components_from_text`
(every branch advances by exactly one line). -/
def compStep (s : CompState) (rawLine : String) : Except String CompState :=
  let line := pyRstrip rawLine
  if pyStrip line = "" then Except.ok s
  else
    match s.pending with
    | some p =>
      if (matchCategory line).isNone && (reMatch newCompRE line).isNone then
        Except.ok (mergePending s p line)
      else compStepRest { s with pending := none } line
    | none => compStepRest s line

/-- Close the still-open category after the loop. -/
def closeFinalCategory (s : CompState) : CompState :=
  if s.currentCategory.isSome ∧ s.categoryComponents ≠ [] then
    { s with categories :=
        s.categories ++ [((s.currentCategory.getD ""), s.categoryComponents)] }
  else s

/-! ## Title-repair post-processing (`_post_process_components`) -/

def knownTitles : List (String × String) :=
  [("1", "Vision and Mission of the University and Department"),
   ("2", "Faculty profiles and individual timetables"),
   ("3", "Course handout and closure report"),
   ("4", "Name list of students (section wise)"),
   ("5", "Mid Term Exam question papers")]

/-- First pass: override known components whose current title looks
incomplete. -/
def postPass1 (comps : List Component) : List Component :=
  comps.map fun c =>
    match assocGet knownTitles c.number with
    | some known =>
      if pyStartswith c.title "(" || pyContains (pyLower c.title) "teaching" ||
         (pyStrip c.title).length < 15 then
        { c with title := known }
      else c
    | none => c

/-- Pattern `^\d+\.?\s*$` (bare-number titles). -/
def bareNumRE : RE := REcat [REplus REd, .opt true (REc '.'), .star true REs, .eol]

/-- Pattern `\([^)]*\)` (parenthetical content, removed from a previous title). -/
def parenGroupRE : RE := REcat [REc '(', .star true (.cls (· ≠ ')')), REc ')']

def contVerbs : List String := ["is ", "are ", "was ", "were ", "teaching "]

/-- The main-topic inference loop: scan components `max(0, i-3) .. i-1`
for the first title with at least three words and take its first three
words; yields `""` when none qualifies. -/
def inferTopic (comps : List Component) (i : Nat) : String :=
  let js := (List.range i).drop (i - 3)
  match js.find? (fun j => 3 ≤ (pySplitWs ((comps[j]?.map (·.title)).getD "")).length) with
  | some j => pyJoin " " ((pySplitWs ((comps[j]?.map (·.title)).getD "")).take 3)
  | none => ""

/-- The parenthetical-lead and continuation-verb rewrites of one
iteration of the second repair pass, returning the (possibly rewritten)
component at position `i` together with the (possibly inferred) main
topic.  Writing the result back at position `i` is the identity when no
branch rewrote the title, matching the in-place Python mutation. -/
def pass2Rewrite (comps : List Component) (prevTitle mainTopic : String)
    (i : Nat) (c : Component) : Component × String :=
  let title := c.title
  if pyStartswith title "(" then
    if 0 < i ∧ prevTitle ≠ "" then
      let mainSubject := pyStrip (reSub parenGroupRE "" prevTitle)
      ({ c with title := mainSubject ++ " " ++ title }, mainTopic)
    else (c, mainTopic)
  else if contVerbs.any (fun v => pyStartswith (pyLower title) v) then
    if 0 < i then
      let mt :=
        if mainTopic = "" ∧ 1 < i then inferTopic comps i else mainTopic
      if mt ≠ "" then
        ({ c with title := mt ++ " - " ++ title }, mt)
      else
        ({ c with title := prevTitle ++ " - " ++ title }, mt)
    else (c, mainTopic)
  else (c, mainTopic)

/-- One iteration of the second (contextual) repair pass.  The branch
tests all read the title as it was at the start of the iteration (the
loop's local `title`), while rewrites go into the component list. -/
def postPass2Step (st : List Component × String × String) (i : Nat) :
    List Component × String × String :=
  let (comps, prevTitle, mainTopic) := st
  match comps[i]? with
  | none => st
  | some c =>
    if i = 0 ∧ (pyContains (pyLower c.title) "contents" ||
                pyContains (pyLower c.title) "no") then st
    else
      let title := c.title
      if (reMatch bareNumRE title).isSome then
        if 0 < i ∧ prevTitle ≠ "" then
          (comps.set i { c with title := prevTitle ++ " (continued)" }, prevTitle, mainTopic)
        else st
      else
        let rew := pass2Rewrite comps prevTitle mainTopic i c
        let comps2 := comps.set i rew.1
        if 3 ≤ (pySplitWs title).length ∧ ¬ pyStartswith title "(" then
          let mt2 :=
            if rew.2 = "" then pyJoin " " ((pySplitWs title).take 3) else rew.2
          (comps2, title, mt2)
        else (comps2, prevTitle, rew.2)

def postPass2 (comps : List Component) : List Component :=
  ((List.range comps.length).foldl postPass2Step (comps, "", "")).1

/-- Patterns `\s+` and `[\-–.,;:]+(\s+[\-–.,;:]+)+`, the final-cleanup patterns. -/
def wsRunRE : RE := REplus REs

def punctCls (c : Char) : Bool :=
  c = '-' || c = '–' || c = '.' || c = ',' || c = ';' || c = ':'

def punctRunsRE : RE :=
  .seq (REplus (.cls punctCls)) (REplus (.seq (REplus REs) (REplus (.cls punctCls))))

def postPass3 (comps : List Component) : List Component :=
  comps.map fun c =>
    { c with title := reSub punctRunsRE ". " (reSub wsRunRE " " c.title) }

/-- Models `ComponentExtractor._post_process_components`. -/
def postProcess (comps : List Component) : List Component :=
  postPass3 (postPass2 (postPass1 comps))

/-- Models `ComponentExtractor.extract_components_from_text`: reset state, fold
the line loop, close the last category, post-process titles. -/
def extractComponentsFull (text : String) : Except String CompState := do
  let st ← (pySplit text '\n').foldlM compStep initCompState
  let st := closeFinalCategory st
  pure { st with components := postProcess st.components }

def extractComponents (text : String) : Except String (List Component) :=
  (extractComponentsFull text).map (·.components)

/-! ## Fallback categorization (`organize_by_categories`) -/

/-- Models `ComponentExtractor.organize_by_categories` when no explicit
categories exist: bucket integer-numbered components by tens; the bucket
name is fixed at first creation as
`f"Components {id*10+1}-{min((id+1)*10, len(self.components))}"`.
Members are positions into the flat component list (Python appends the
component objects themselves). -/
def organizeStep (total : Int) (dict : List (Int × (String × List Nat)))
    (p : Nat × Component) : List (Int × (String × List Nat)) :=
  match pyInt p.2.number with
  | none => dict
  | some num =>
    let cid : Int := (num - 1).fdiv 10
    match assocGet dict cid with
    | some pr => assocSet dict cid (pr.1, pr.2 ++ [p.1])
    | none =>
      let name := "Components " ++ toString (cid * 10 + 1) ++ "-"
        ++ toString (min ((cid + 1) * 10) total)
      dict ++ [(cid, (name, [p.1]))]

def organizeByCategories (comps : List Component)
    (cats : List (String × List Nat)) : List (String × List Nat) :=
  if cats ≠ [] then cats
  else (comps.enum.foldl (organizeStep (comps.length : Int)) []).map Prod.snd

/-! ## Instance methods with explicit prior state

Each public extraction method begins by overwriting the instance fields
it uses (`self.toc_entries = []`, `self.index_entries = OrderedDict()`,
`self.components = []; self.categories = []`), so the prior state passed
here is discarded — that is the content of the reset/idempotence claim.
The runners below also track the state left behind when an exception
escapes mid-extraction. -/

/-- Models `_extract_toc` as a method: result and the `self.toc_entries` left
behind.  When the hierarchy pass raises, the flat first-pass list (with
no hierarchy) remains on the instance. -/
def extractTocMethod (prior : TocForest) (text : String) :
    Except String TocForest × TocForest :=
  let _ := prior
  let flat := tocFirstPass (pySplit text '\n')
  if flat.isEmpty then (Except.ok ⟨flat, [], []⟩, ⟨flat, [], []⟩)
  else
    match determineHierarchy flat with
    | Except.ok f => (Except.ok f, f)
    | Except.error e => (Except.error e, ⟨flat, [], []⟩)

/-- The `_extract_index` loop, keeping the partial state at an error. -/
def indexRun : IndexState → List String → Option String × IndexState
  | st, [] => (none, st)
  | st, l :: ls =>
    match indexStep st l with
    | Except.ok st' => indexRun st' ls
    | Except.error e => (some e, st)

/-- Models `_extract_index` as a method: result and the `self.index_entries`
left behind. -/
def extractIndexMethod (prior : List IndexEntry) (text : String) :
    Except String (List IndexEntry) × List IndexEntry :=
  let _ := prior
  let (err, st) := indexRun ⟨[], none⟩ (pySplit text '\n')
  match err with
  | some e => (Except.error e, st.entries)
  | none => (Except.ok st.entries, st.entries)

/-- The component loop, keeping the partial state at an error. -/
def compRun : CompState → List String → Option String × CompState
  | st, [] => (none, st)
  | st, l :: ls =>
    match compStep st l with
    | Except.ok st' => compRun st' ls
    | Except.error e => (some e, st)

/-- Models `extract_components_from_text` as a method: result and the
`(self.components, self.categories)` left behind. -/
def extractComponentsMethod (prior : List Component × List (String × List Nat))
    (text : String) :
    Except String (List Component) × (List Component × List (String × List Nat)) :=
  let _ := prior
  let (err, st) := compRun initCompState (pySplit text '\n')
  match err with
  | some e => (Except.error e, (st.components, st.categories))
  | none =>
    let st := closeFinalCategory st
    let comps := postProcess st.components
    (Except.ok comps, (comps, st.categories))

/-- Models `TOCExtractor.extract_toc_from_text(text, is_index)`. -/
def extractTocFromText (text : String) (isIndex : Bool) :
    Except String (TocForest ⊕ List IndexEntry) :=
  if isIndex then (extractIndex text).map Sum.inr
  else (extractToc text).map Sum.inl

/-! ## Shared lemmas -/

theorem dropWhile_idem {α : Type} (p : α → Bool) (l : List α) :
    (l.dropWhile p).dropWhile p = l.dropWhile p := by
  induction l with
  | nil => rfl
  | cons c rest ih =>
    by_cases h : p c
    · simp [List.dropWhile_cons, h, ih]
    · simp [List.dropWhile_cons, h]

theorem pyRstripL_idem (l : List Char) : pyRstripL (pyRstripL l) = pyRstripL l := by
  simp only [pyRstripL, List.reverse_reverse, dropWhile_idem]

theorem pyStrip_pyRstrip (s : String) : pyStrip (pyRstrip s) = pyStrip s := by
  simp only [pyStrip, pyRstrip, pyStripL, pyLstripL, pyRstripL_idem]

theorem tocLineEntry_none_of_short (line : String)
    (h : (pyStrip line).length < 5) : tocLineEntry line = none := by
  unfold tocLineEntry
  simp only [pyStrip_pyRstrip]
  by_cases hz : pyStrip line = ""
  · simp [hz]
  · simp [hz, h]

/-! ## Claim theorems -/

/-- C10: TOC extraction silently discards every line whose
whitespace-trimmed length is below 5 before any pattern is tried —
removing such a line from the input leaves the first-pass entry list
unchanged — and in particular the whole text `"2. D"` yields no entry. -/
theorem c10_short_lines_discarded :
    (∀ (pre post : List String) (line : String), (pyStrip line).length < 5 →
      tocFirstPass (pre ++ line :: post) = tocFirstPass (pre ++ post)) ∧
    extractToc "2. D" = Except.ok ⟨[], [], []⟩ := by
  constructor
  · intro pre post line h
    simp [tocFirstPass, List.filterMap_append, List.filterMap_cons,
          tocLineEntry_none_of_short line h]
  · decide

/-- C10 witness: the short line `"2. D"` is dropped by the first pass. -/
theorem c10_short_lines_discarded_witness :
    (pyStrip "2. D").length < 5 ∧ tocFirstPass ["2. D"] = tocFirstPass [] :=
  ⟨by decide, c10_short_lines_discarded.1 [] [] "2. D" (by decide)⟩

/-- C2: false as stated — for every nonempty flat entry list the
hierarchy pass raises `ValueError` before any entry is placed: the sort
key `lambda x: (x.level, self.toc_entries.index(x))` inspects
`self.toc_entries` while CPython's `list.sort` has emptied it, so the
`index` call fails on the first key computation and the left-to-right
walk below the sort is never reached. -/
theorem c2_hierarchy_pass_raises :
    ∀ es : List TOCEntry, es ≠ [] →
      determineHierarchy es = Except.error "ValueError: x is not in list" := by
  intro es h
  match es with
  | [] => exact absurd rfl h
  | e :: rest =>
    simp [determineHierarchy, tocSortKeys, List.mapM, List.mapM.loop, pyIndexOf,
          List.indexOf?, List.findIdx?, Functor.map, Except.map, Bind.bind, Except.bind]

/-- C2 witness: the single-entry list from the line `"Alpha 10"` makes
the hierarchy pass raise. -/
theorem c2_hierarchy_pass_raises_witness :
    ([(⟨0, "Alpha", some 10, "Alpha 10"⟩ : TOCEntry)] ≠ []) ∧
    determineHierarchy [⟨0, "Alpha", some 10, "Alpha 10"⟩] =
      Except.error "ValueError: x is not in list" :=
  ⟨by decide, c2_hierarchy_pass_raises [⟨0, "Alpha", some 10, "Alpha 10"⟩] (by decide)⟩

/-- C3: false as stated — `extract_toc_from_text` in TOC mode raises for
any input yielding at least one entry.  The line `"Alpha 10"` is
classified into an entry by the first pass, after which the hierarchy
pass's sort-key computation raises `ValueError` and the exception
propagates out of the public call. -/
theorem c3_toc_mode_raises :
    tocFirstPass ["Alpha 10"] = [⟨0, "Alpha", some 10, "Alpha 10"⟩] ∧
    extractTocFromText "Alpha 10" false =
      Except.error "ValueError: x is not in list" := by
  constructor
  · decide
  · decide

/-- C1: false as stated — on the spec's own input
`"1. A\n  1.1 B\n  1.2 C\n2. D"` extraction returns successfully with an
empty entry pool: no entry titled "A" (with or without children) exists
in the result, and no entry titled "D" either. -/
theorem c1_counterexample :
    (extractToc "1. A\n  1.1 B\n  1.2 C\n2. D").toOption.map
        (fun f => f.entries.any (fun e => e.title = "A" || e.title = "D")) =
      some false := by
  decide

/-- C1 amended: on input `"1. A\n  1.1 B\n  1.2 C\n2. D"` TOC extraction
returns the empty forest: lines `"1. A"` and `"2. D"` are discarded by
the minimum-length filter (stripped length below 5) and lines
`"  1.1 B"`, `"  1.2 C"` match no TOC pattern (they carry no trailing
page number). -/
theorem c1_amended :
    (pyStrip "1. A").length < 5 ∧ (pyStrip "2. D").length < 5 ∧
    parseTocLine "  1.1 B" = none ∧ parseTocLine "  1.2 C" = none ∧
    extractToc "1. A\n  1.1 B\n  1.2 C\n2. D" = Except.ok ⟨[], [], []⟩ := by
  refine ⟨by decide, by decide, by decide, by decide, by decide⟩

/-- C9: false as stated — the line `"  Intro....7"` (two leading spaces,
title, four dots, trailing integer) is assigned level 0, while the claim
demands `floor(2 / 2) = 1`; the equality test against the claimed level
comes out false. -/
theorem c9_counterexample :
    (parseTocLine "  Intro....7").map TOCEntry.level = some 0 ∧
    (((parseTocLine "  Intro....7").map TOCEntry.level == some (2 / 2)) = false) := by
  constructor
  · decide
  · decide

/-- C4: each extraction method (TOC, index, component) resets the
instance state it reads before doing anything else, so its result and
the state it leaves behind are independent of the prior instance state,
and an immediate second call on the same instance returns the identical
result and leaves the state unchanged — results never accumulate. -/
theorem c4_extraction_resets_state :
    ∀ (text : String) (t1 t2 : TocForest) (i1 i2 : List IndexEntry)
      (c1 c2 : List Component × List (String × List Nat)),
      extractTocMethod t1 text = extractTocMethod t2 text ∧
      extractTocMethod (extractTocMethod t1 text).2 text = extractTocMethod t1 text ∧
      extractIndexMethod i1 text = extractIndexMethod i2 text ∧
      extractIndexMethod (extractIndexMethod i1 text).2 text = extractIndexMethod i1 text ∧
      extractComponentsMethod c1 text = extractComponentsMethod c2 text ∧
      extractComponentsMethod (extractComponentsMethod c1 text).2 text =
        extractComponentsMethod c1 text := by
  intro text t1 t2 i1 i2 c1 c2
  exact ⟨rfl, rfl, rfl, rfl, rfl, rfl⟩

theorem not_ws_of_digit (c : Char) (h : c.isDigit = true) : pyWs c = false := by
  cases hw : pyWs c
  · rfl
  · exfalso
    simp only [pyWs, Bool.or_eq_true, decide_eq_true_eq] at hw
    rcases hw with ((((h1 | h1) | h1) | h1) | h1) | h1 <;>
      (subst h1; exact absurd h (by decide))

theorem dropWhile_eq_self_of_all {α : Type} (p : α → Bool) (l : List α)
    (h : ∀ c ∈ l, p c = false) : l.dropWhile p = l := by
  cases l with
  | nil => rfl
  | cons c rest => simp [List.dropWhile_cons, h c (by simp)]

theorem pyStripL_eq_self (l : List Char) (h : ∀ c ∈ l, pyWs c = false) :
    pyStripL l = l := by
  unfold pyStripL pyRstripL pyLstripL
  rw [dropWhile_eq_self_of_all _ _ (fun c hc => h c (List.mem_reverse.mp hc))]
  rw [List.reverse_reverse, dropWhile_eq_self_of_all _ _ h]

theorem pySplitChar_of_not_mem (l : List Char) (sep : Char) (h : sep ∉ l) :
    pySplitChar l sep = [l] := by
  induction l with
  | nil => rfl
  | cons c rest ih =>
    have hc : ¬ (c = sep) := fun e => h (e ▸ List.mem_cons_self c rest)
    have hrest : sep ∉ rest := fun m => h (List.mem_cons_of_mem c m)
    simp [pySplitChar, ih hrest, hc]

theorem pySplitChar_append (a rest : List Char) (sep : Char) (h : sep ∉ a) :
    pySplitChar (a ++ sep :: rest) sep = a :: pySplitChar rest sep := by
  induction a with
  | nil => simp [pySplitChar]
  | cons c cs ih =>
    have hc : ¬ (c = sep) := fun e => h (e ▸ List.mem_cons_self c cs)
    have hcs : sep ∉ cs := fun m => h (List.mem_cons_of_mem c m)
    simp [pySplitChar, ih hcs, hc]

theorem pyInt_digits (l : List Char) (hne : l ≠ []) (hd : l.all Char.isDigit) :
    pyInt ⟨l⟩ = some ((digitsVal l : Nat) : Int) := by
  have hall : ∀ c ∈ l, c.isDigit = true := List.all_eq_true.mp hd
  have hnws : ∀ c ∈ l, pyWs c = false := fun c hc => not_ws_of_digit c (hall c hc)
  unfold pyInt
  rw [show (String.mk l).data = l from rfl, pyStripL_eq_self l hnws]
  match l, hne, hall, hd with
  | c :: ds, _, hall, hd =>
    have hcd : c.isDigit = true := hall c (by simp)
    have h1 : ¬ (c = '+') := fun e => by subst e; exact absurd hcd (by decide)
    have h2 : ¬ (c = '-') := fun e => by subst e; exact absurd hcd (by decide)
    simp [h1, h2, hd]

/-- C5: extracting the index line `"Algorithms, 10, 15-17, 23"` yields
term "Algorithms" with `page_refs == [10, 15, 16, 17, 23]`; in general
every well-formed range token `a-b` (digit runs with `a ≤ b`) in a page
list expands to the consecutive integers `a` through `b` inclusive. -/
theorem c5_page_range_expansion :
    extractIndex "Algorithms, 10, 15-17, 23" =
      Except.ok [⟨"Algorithms",
        [.num 10, .num 15, .num 16, .num 17, .num 23], []⟩] ∧
    ∀ (a b : List Char), a ≠ [] → a.all Char.isDigit → b ≠ [] →
      b.all Char.isDigit → digitsVal a ≤ digitsVal b →
      parsePageRefs ⟨a ++ '-' :: b⟩ =
        (List.range (digitsVal b + 1 - digitsVal a)).map
          (fun k => PageRef.num ((digitsVal a : Int) + (k : Int))) := by
  constructor
  · decide
  · intro a b hane had hbne hbd hle
    have hada : ∀ c ∈ a, c.isDigit = true := List.all_eq_true.mp had
    have hbda : ∀ c ∈ b, c.isDigit = true := List.all_eq_true.mp hbd
    have hnws : ∀ c ∈ a ++ '-' :: b, pyWs c = false := by
      intro c hc
      rcases List.mem_append.mp hc with h | h
      · exact not_ws_of_digit c (hada c h)
      · rcases List.mem_cons.mp h with h | h
        · subst h; decide
        · exact not_ws_of_digit c (hbda c h)
    have hnc : ',' ∉ a ++ '-' :: b := by
      intro hc
      rcases List.mem_append.mp hc with h | h
      · exact absurd (hada _ h) (by decide)
      · rcases List.mem_cons.mp h with h | h
        · exact absurd h (by decide)
        · exact absurd (hbda _ h) (by decide)
    have hha : '-' ∉ a := fun m => absurd (hada _ m) (by decide)
    have hhb : '-' ∉ b := fun m => absurd (hbda _ m) (by decide)
    have hnonnil : a ++ '-' :: b ≠ [] := by simp
    have hsplit1 : pySplit ⟨a ++ '-' :: b⟩ ',' = [⟨a ++ '-' :: b⟩] := by
      simp [pySplit, pySplitChar_of_not_mem _ ',' hnc]
    have hstrip : pyStrip ⟨a ++ '-' :: b⟩ = ⟨a ++ '-' :: b⟩ := by
      simp [pyStrip, pyStripL_eq_self _ hnws]
    have hcontains : (String.mk (a ++ '-' :: b)).data.contains '-' = true := by
      simp [List.contains_iff_exists_mem_beq]
    have hsplit2 : pySplit ⟨a ++ '-' :: b⟩ '-' = [⟨a⟩, ⟨b⟩] := by
      simp [pySplit, pySplitChar_append a b '-' hha,
            pySplitChar_of_not_mem b '-' hhb]
    unfold parsePageRefs
    rw [if_neg (by simpa using fun e => hnonnil (congrArg String.data e))]
    simp only [hsplit1, List.map_cons, List.map_nil, hstrip,
      List.flatMap_cons, List.flatMap_nil]
    rw [if_pos hcontains, hsplit2]
    simp only [pyInt_digits a hane had, pyInt_digits b hbne hbd]
    simp only [intRange, List.map_map, List.append_nil]
    have htn : ((digitsVal b : Int) + 1 - (digitsVal a : Int)).toNat =
        digitsVal b + 1 - digitsVal a := by omega
    rw [htn]
    simp [Function.comp]

/-- C5 witness: the range token `"15-17"` expands to `[15, 16, 17]`. -/
theorem c5_page_range_expansion_witness :
    (['1', '5'] : List Char) ≠ [] ∧ (['1', '5'] : List Char).all Char.isDigit ∧
    (['1', '7'] : List Char) ≠ [] ∧ (['1', '7'] : List Char).all Char.isDigit ∧
    digitsVal ['1', '5'] ≤ digitsVal ['1', '7'] ∧
    parsePageRefs ⟨['1', '5'] ++ '-' :: ['1', '7']⟩ =
      (List.range (digitsVal ['1', '7'] + 1 - digitsVal ['1', '5'])).map
        (fun k => PageRef.num ((digitsVal ['1', '5'] : Int) + (k : Int))) :=
  ⟨by decide, by decide, by decide, by decide, by decide,
   c5_page_range_expansion.2 ['1', '5'] ['1', '7']
     (by decide) (by decide) (by decide) (by decide) (by decide)⟩

/-- C6: a line holding only a number and a terminal delimiter becomes a
pending identifier merged with the next non-empty line when that line is
neither a category header nor a freshly numbered component: extracting
`"4.\nStudent name lists"` yields exactly one component with number "4"
and title "Student name lists".  Conversely, when the next non-empty
line is a category header or starts a fresh numbered component, the
pending identifier is discarded: the step behaves exactly as if nothing
were pending. -/
theorem c6_pending_identifier_merge :
    extractComponents "4.\nStudent name lists" =
      Except.ok [⟨"4", "Student name lists", none, "4. Student name lists"⟩] ∧
    ∀ (s : CompState) (p line : String),
      s.pending = some p →
      pyStrip (pyRstrip line) ≠ "" →
      ((matchCategory (pyRstrip line)).isSome ∨
        (reMatch newCompRE (pyRstrip line)).isSome) →
      compStep s line = compStep { s with pending := none } line := by
  constructor
  · decide
  · intro s p line hp hne hdisc
    have hfalse : ((matchCategory (pyRstrip line)).isNone &&
        (reMatch newCompRE (pyRstrip line)).isNone) = false := by
      rcases hdisc with h | h
      · obtain ⟨x, hx⟩ := Option.isSome_iff_exists.mp h
        simp [hx]
      · obtain ⟨x, hx⟩ := Option.isSome_iff_exists.mp h
        simp [hx]
    unfold compStep
    simp only [hp, hne, if_neg, hfalse, Bool.false_eq_true]
    simp [hne]

/-- C6 witness: with "4" pending, the fresh numbered line `"5. Next"`
discards the pending identifier. -/
theorem c6_pending_identifier_merge_witness :
    ({ initCompState with pending := some "4" } : CompState).pending = some "4" ∧
    pyStrip (pyRstrip "5. Next") ≠ "" ∧
    ((matchCategory (pyRstrip "5. Next")).isSome ∨
      (reMatch newCompRE (pyRstrip "5. Next")).isSome) ∧
    compStep { initCompState with pending := some "4" } "5. Next" =
      compStep { initCompState with pending := none } "5. Next" :=
  ⟨rfl, by decide, by decide,
   c6_pending_identifier_merge.2 { initCompState with pending := some "4" } "4"
     "5. Next" rfl (by decide) (by decide)⟩

theorem postPass2Step_length (st : List Component × String × String) (i : Nat) :
    (postPass2Step st i).1.length = st.1.length := by
  obtain ⟨comps, pt, mt⟩ := st
  unfold postPass2Step
  rcases hg : comps[i]? with _ | c
  · simp [hg]
  · simp only [hg]
    repeat' split
    all_goals simp [List.length_set]

theorem postPass2_foldl_length (js : List Nat) :
    ∀ st : List Component × String × String,
      ((js.foldl postPass2Step st).1).length = st.1.length := by
  induction js with
  | nil => intro st; rfl
  | cons j rest ih => intro st; rw [List.foldl_cons, ih, postPass2Step_length]

theorem postProcess_length (comps : List Component) :
    (postProcess comps).length = comps.length := by
  unfold postProcess postPass3
  rw [List.length_map]
  unfold postPass2
  rw [postPass2_foldl_length]
  unfold postPass1
  rw [List.length_map]

theorem pySplit_cons_nl (x rest : String) (h : ¬ '\n' ∈ x.data) :
    pySplit (x ++ "\n" ++ rest) '\n' = x :: pySplit rest '\n' := by
  simp only [pySplit]
  have hd : (x ++ "\n" ++ rest).data = x.data ++ '\n' :: rest.data := by
    simp [String.data_append]
  rw [hd, pySplitChar_append _ _ _ h]
  rfl

theorem pySplit_single_nl (x : String) (h : ¬ '\n' ∈ x.data) :
    pySplit x '\n' = [x] := by
  simp only [pySplit]
  rw [pySplitChar_of_not_mem _ _ h]
  rfl

/-- C7: a category header followed by exactly three component lines and
a second header closes the first category with exactly those three
components in source order before opening the second (which, having
collected nothing, is never appended); a component classified before the
first header lands in the flat list (position 0) but in no category. -/
theorem c7_category_closing :
    ∀ (p h1 c1 c2 c3 h2 n1 n2 : String) (k0 k1 k2 k3 : Component),
      ¬ '\n' ∈ p.data → ¬ '\n' ∈ h1.data → ¬ '\n' ∈ c1.data →
      ¬ '\n' ∈ c2.data → ¬ '\n' ∈ c3.data → ¬ '\n' ∈ h2.data →
      pyRstrip p = p → pyRstrip h1 = h1 → pyRstrip c1 = c1 →
      pyRstrip c2 = c2 → pyRstrip c3 = c3 → pyRstrip h2 = h2 →
      pyStrip p ≠ "" → pyStrip h1 ≠ "" → pyStrip c1 ≠ "" →
      pyStrip c2 ≠ "" → pyStrip c3 ≠ "" → pyStrip h2 ≠ "" →
      matchCategory p = none → matchCategory c1 = none →
      matchCategory c2 = none → matchCategory c3 = none →
      matchCategory h1 = some n1 → matchCategory h2 = some n2 →
      reMatch standaloneNumRE (pyStrip p) = none →
      reMatch standaloneNumRE (pyStrip c1) = none →
      reMatch standaloneNumRE (pyStrip c2) = none →
      reMatch standaloneNumRE (pyStrip c3) = none →
      parseComponentLine p = Except.ok (some k0) →
      parseComponentLine c1 = Except.ok (some k1) →
      parseComponentLine c2 = Except.ok (some k2) →
      parseComponentLine c3 = Except.ok (some k3) →
      extractComponentsFull (pyJoin "\n" [p, h1, c1, c2, c3, h2]) =
        Except.ok ⟨postProcess [k0, k1, k2, k3], [(n1, [1, 2, 3])], some n2, [], none⟩ ∧
      (postProcess [k0, k1, k2, k3]).length = 4 ∧
      (∀ pr ∈ [(n1, [1, 2, 3])], (0 : Nat) ∉ pr.2) := by
  intro p h1 c1 c2 c3 h2 n1 n2 k0 k1 k2 k3
  intro hnl0 hnl1 hnl2 hnl3 hnl4 hnl5
  intro hr0 hr1 hr2 hr3 hr4 hr5
  intro hs0 hs1 hs2 hs3 hs4 hs5
  intro hcat0 hcatc1 hcatc2 hcatc3 hcath1 hcath2
  intro hsa0 hsa1 hsa2 hsa3
  intro hpc0 hpc1 hpc2 hpc3
  have hsplit : pySplit (pyJoin "\n" [p, h1, c1, c2, c3, h2]) '\n' =
      [p, h1, c1, c2, c3, h2] := by
    show pySplit
      (p ++ "\n" ++ (h1 ++ "\n" ++ (c1 ++ "\n" ++ (c2 ++ "\n" ++ (c3 ++ "\n" ++ h2)))))
      '\n' = _
    rw [pySplit_cons_nl _ _ hnl0, pySplit_cons_nl _ _ hnl1, pySplit_cons_nl _ _ hnl2,
        pySplit_cons_nl _ _ hnl3, pySplit_cons_nl _ _ hnl4, pySplit_single_nl _ hnl5]
  have st0 : compStep initCompState p = Except.ok ⟨[k0], [], none, [], none⟩ := by
    simp [compStep, hr0, hs0, initCompState, compStepRest, hcat0, hsa0, hpc0,
          pushComponent, Bind.bind, Except.bind, pure, Except.pure]
  have st1 : compStep ⟨[k0], [], none, [], none⟩ h1 =
      Except.ok ⟨[k0], [], some n1, [], none⟩ := by
    simp [compStep, hr1, hs1, compStepRest, hcath1]
  have st2 : compStep ⟨[k0], [], some n1, [], none⟩ c1 =
      Except.ok ⟨[k0, k1], [], some n1, [1], none⟩ := by
    simp [compStep, hr2, hs2, compStepRest, hcatc1, hsa1, hpc1, pushComponent,
          Bind.bind, Except.bind, pure, Except.pure]
  have st3 : compStep ⟨[k0, k1], [], some n1, [1], none⟩ c2 =
      Except.ok ⟨[k0, k1, k2], [], some n1, [1, 2], none⟩ := by
    simp [compStep, hr3, hs3, compStepRest, hcatc2, hsa2, hpc2, pushComponent,
          Bind.bind, Except.bind, pure, Except.pure]
  have st4 : compStep ⟨[k0, k1, k2], [], some n1, [1, 2], none⟩ c3 =
      Except.ok ⟨[k0, k1, k2, k3], [], some n1, [1, 2, 3], none⟩ := by
    simp [compStep, hr4, hs4, compStepRest, hcatc3, hsa3, hpc3, pushComponent,
          Bind.bind, Except.bind, pure, Except.pure]
  have st5 : compStep ⟨[k0, k1, k2, k3], [], some n1, [1, 2, 3], none⟩ h2 =
      Except.ok ⟨[k0, k1, k2, k3], [(n1, [1, 2, 3])], some n2, [], none⟩ := by
    simp [compStep, hr5, hs5, compStepRest, hcath2]
  refine ⟨?_, postProcess_length [k0, k1, k2, k3], ?_⟩
  · unfold extractComponentsFull
    rw [hsplit]
    simp only [List.foldlM_cons, List.foldlM_nil, st0, st1, st2, st3, st4, st5,
      Bind.bind, Except.bind, pure, Except.pure, closeFinalCategory]
    simp
  · intro pr hpr
    rw [List.mem_singleton] at hpr
    subst hpr
    show (0 : Nat) ∉ [1, 2, 3]
    decide

/-- C7 witness: a concrete six-line input exercising the hypotheses. -/
theorem c7_category_closing_witness :
    parseComponentLine "1. Alpha item one" =
      Except.ok (some ⟨"1", "Alpha item one", none, "1. Alpha item one"⟩) ∧
    matchCategory "SECTION ONE:" = some "SECTION ONE" ∧
    matchCategory "SECTION TWO:" = some "SECTION TWO" ∧
    extractComponentsFull
        (pyJoin "\n" ["1. Alpha item one", "SECTION ONE:", "2. Beta item two",
                      "3. Gamma item three", "4. Delta item four", "SECTION TWO:"]) =
      Except.ok ⟨postProcess
          [⟨"1", "Alpha item one", none, "1. Alpha item one"⟩,
           ⟨"2", "Beta item two", none, "2. Beta item two"⟩,
           ⟨"3", "Gamma item three", none, "3. Gamma item three"⟩,
           ⟨"4", "Delta item four", none, "4. Delta item four"⟩],
        [("SECTION ONE", [1, 2, 3])], some "SECTION TWO", [], none⟩ :=
  ⟨by decide, by decide, by decide,
   (c7_category_closing "1. Alpha item one" "SECTION ONE:" "2. Beta item two"
      "3. Gamma item three" "4. Delta item four" "SECTION TWO:"
      "SECTION ONE" "SECTION TWO"
      ⟨"1", "Alpha item one", none, "1. Alpha item one"⟩
      ⟨"2", "Beta item two", none, "2. Beta item two"⟩
      ⟨"3", "Gamma item three", none, "3. Gamma item three"⟩
      ⟨"4", "Delta item four", none, "4. Delta item four"⟩
      (by decide) (by decide) (by decide) (by decide) (by decide) (by decide)
      (by decide) (by decide) (by decide) (by decide) (by decide) (by decide)
      (by decide) (by decide) (by decide) (by decide) (by decide) (by decide)
      (by decide) (by decide) (by decide) (by decide) (by decide) (by decide)
      (by decide) (by decide) (by decide) (by decide)
      (by decide) (by decide) (by decide) (by decide)).1⟩

theorem assocGet_mem_of_some {α β : Type} [DecidableEq α] {m : List (α × β)}
    {k : α} {v : β} (h : assocGet m k = some v) : (k, v) ∈ m := by
  unfold assocGet at h
  rcases hf : m.find? (fun p => p.1 = k) with _ | pair
  · rw [hf] at h; cases h
  · rw [hf] at h
    obtain ⟨p1, p2⟩ := pair
    have hk : p1 = k := by simpa using List.find?_some hf
    have hv : p2 = v := by simpa using h
    subst hk; subst hv
    exact List.mem_of_find?_eq_some hf

theorem assocSet_mem {α β : Type} [DecidableEq α] (m : List (α × β)) (k : α)
    (v : β) (e : α × β) (h : e ∈ assocSet m k v) : e = (k, v) ∨ e ∈ m := by
  induction m with
  | nil =>
    left
    simpa [assocSet] using h
  | cons f rest ih =>
    obtain ⟨f1, f2⟩ := f
    unfold assocSet at h
    by_cases hk : f1 = k
    · rw [if_pos hk] at h
      rcases List.mem_cons.mp h with h | h
      · left; exact h
      · right; exact List.mem_cons_of_mem _ h
    · rw [if_neg hk] at h
      rcases List.mem_cons.mp h with h | h
      · right; exact h ▸ List.mem_cons_self _ _
      · rcases ih h with h | h
        · left; exact h
        · right; exact List.mem_cons_of_mem _ h

theorem organizeStep_inv (comps : List Component) (total : Int)
    (dict : List (Int × (String × List Nat))) (p : Nat × Component)
    (hq : comps[p.1]? = some p.2)
    (hd : ∀ pr ∈ dict, ∀ i ∈ pr.2.2,
      ∃ c, comps[i]? = some c ∧ (pyInt c.number).isSome) :
    ∀ pr ∈ organizeStep total dict p, ∀ i ∈ pr.2.2,
      ∃ c, comps[i]? = some c ∧ (pyInt c.number).isSome := by
  unfold organizeStep
  rcases hpi : pyInt p.2.number with _ | num
  · simpa using hd
  · simp only []
    rcases hg : assocGet dict ((num - 1).fdiv 10) with _ | pr0
    · intro pr hpr i hi
      rcases List.mem_append.mp hpr with h | h
      · exact hd pr h i hi
      · have he := List.mem_singleton.mp h
        subst he
        have hip : i = p.1 := by simpa using hi
        subst hip
        exact ⟨p.2, hq, by simp [hpi]⟩
    · intro pr hpr i hi
      rcases assocSet_mem _ _ _ _ hpr with h | h
      · subst h
        rcases List.mem_append.mp hi with h | h
        · exact hd ((num - 1).fdiv 10, pr0) (assocGet_mem_of_some hg) i h
        · have hip : i = p.1 := by simpa using h
          subst hip
          exact ⟨p.2, hq, by simp [hpi]⟩
      · exact hd pr h i hi

theorem organizeFold_inv (comps : List Component) (total : Int) :
    ∀ (ps : List (Nat × Component)) (dict : List (Int × (String × List Nat))),
      (∀ q ∈ ps, comps[q.1]? = some q.2) →
      (∀ pr ∈ dict, ∀ i ∈ pr.2.2,
        ∃ c, comps[i]? = some c ∧ (pyInt c.number).isSome) →
      ∀ pr ∈ ps.foldl (organizeStep total) dict, ∀ i ∈ pr.2.2,
        ∃ c, comps[i]? = some c ∧ (pyInt c.number).isSome := by
  intro ps
  induction ps with
  | nil => intro dict _ hd; simpa using hd
  | cons q rest ih =>
    intro dict hps hd
    rw [List.foldl_cons]
    exact ih _ (fun r hr => hps r (List.mem_cons_of_mem q hr))
      (organizeStep_inv comps total dict q (hps q (List.mem_cons_self q rest)) hd)

/-- C8: with no explicit category headers, 23 components numbered 1
through 23 (any titles) are bucketed into exactly 3 synthesized
categories "Components 1-10", "Components 11-20" and "Components 21-23"
(the last bound clamped to the total count), holding positions 0-9,
10-19 and 20-22 of the flat list; and every member of every synthesized
bucket is a component whose identifier parses as an integer —
non-integer identifiers are excluded. -/
theorem c8_fallback_bucketing :
    (organizeByCategories
        ((List.range 23).map (fun i => ⟨toString (i + 1), "T", none, ""⟩)) [] =
      [("Components 1-10", [0, 1, 2, 3, 4, 5, 6, 7, 8, 9]),
       ("Components 11-20", [10, 11, 12, 13, 14, 15, 16, 17, 18, 19]),
       ("Components 21-23", [20, 21, 22])]) ∧
    (∀ comps : List Component, ∀ pr ∈ organizeByCategories comps [], ∀ i ∈ pr.2,
      ∃ c, comps[i]? = some c ∧ (pyInt c.number).isSome) := by
  constructor
  · decide
  · intro comps pr hpr i hi
    unfold organizeByCategories at hpr
    rw [if_neg (by simp)] at hpr
    obtain ⟨x, hx, hxe⟩ := List.mem_map.mp hpr
    have hinv := organizeFold_inv comps (comps.length : Int) comps.enum []
      (fun q hq => List.mem_enum_iff_getElem?.mp hq) (by simp) x hx
    exact hinv i (by rw [show pr = x.2 from hxe.symm] at hi; exact hi)

/-- C8 witness: a single component numbered "7" lands in the synthesized
bucket "Components 1-1" at position 0, and its identifier parses. -/
theorem c8_fallback_bucketing_witness :
    (("Components 1-1", [0]) ∈
      organizeByCategories [⟨"7", "T", none, ""⟩] []) ∧
    (0 ∈ (("Components 1-1", [0]) : String × List Nat).2) ∧
    ∃ c, ([(⟨"7", "T", none, ""⟩ : Component)])[0]? = some c ∧
      (pyInt c.number).isSome :=
  ⟨by decide, by decide,
   c8_fallback_bucketing.2 [⟨"7", "T", none, ""⟩] ("Components 1-1", [0])
     (by decide) 0 (by decide)⟩

theorem tocPat1_decomp :
    tocPat1 = .seq (.opt true (.group "prefix" tocP1PfxBody))
      (.seq (.group "title" REanyLazy) tocP1Rest) := rfl

theorem ws_not_digit (c : Char) (h : pyWs c = true) : c.isDigit = false := by
  cases hd : c.isDigit
  · rfl
  · exact absurd (not_ws_of_digit c hd) (by simp [h])

theorem digit_ne_dot (c : Char) (h : c.isDigit = true) : c ≠ '.' := by
  intro he
  subst he
  exact absurd h (by decide)

theorem digit_ne_nl (c : Char) (h : c.isDigit = true) : c ≠ '\n' := by
  intro he
  subst he
  exact absurd h (by decide)

theorem ws_ne_nl (c : Char) (h : pyWs c = false) : c ≠ '\n' := by
  intro he
  subst he
  exact absurd h (by decide)

theorem reMatches_seq (a b : RE) (s : List Char) (caps : Caps) :
    reMatches (.seq a b) s caps =
      (reMatches a s caps).flatMap fun p => reMatches b p.2 p.1 := rfl

theorem reMatches_group (n : String) (r : RE) (s : List Char) (caps : Caps) :
    reMatches (.group n r) s caps =
      (reMatches r s caps).map fun p =>
        ((n, ⟨s.take (s.length - p.2.length)⟩) :: p.1, p.2) := rfl

theorem reMatches_optG (r : RE) (s : List Char) (caps : Caps) :
    reMatches (.opt true r) s caps = reMatches r s caps ++ [(caps, s)] := rfl

theorem reMatches_starL (r : RE) (s : List Char) (caps : Caps) :
    reMatches (.star false r) s caps =
      starAux (fun t c => reMatches r t c) false (s.length + 1) s caps := rfl

theorem plusd_fail (c : Char) (s : List Char) (caps : Caps)
    (h : c.isDigit = false) : reMatches (REplus REd) (c :: s) caps = [] := by
  simp only [REplus, REd, reMatches, h, Bool.false_eq_true, if_false]
  rfl

theorem tocP1PfxBody_fail (c : Char) (s : List Char) (caps : Caps)
    (h : c.isDigit = false) : reMatches tocP1PfxBody (c :: s) caps = [] := by
  have e1 : tocP1PfxBody =
      .seq (.seq (.seq (REplus REd) (REc '.'))
        (.star true (.seq (REplus REd) (REc '.')))) (.star true REs) := rfl
  rw [e1, reMatches_seq, reMatches_seq, reMatches_seq, plusd_fail c s caps h]
  rfl

theorem tocPat1_opt_ws (c : Char) (s : List Char) (caps : Caps)
    (h : c.isDigit = false) :
    reMatches (.opt true (.group "prefix" tocP1PfxBody)) (c :: s) caps =
      [(caps, c :: s)] := by
  rw [reMatches_optG, reMatches_group, tocP1PfxBody_fail c s caps h]
  rfl

theorem reMatches_any_cons (c : Char) (rest : List Char) (caps : Caps) (hc : c ≠ '\n') :
    reMatches REany (c :: rest) caps = [(caps, rest)] := by
  simp [reMatches, REany, hc]

theorem starAux_any_lazy :
    ∀ (s : List Char) (fuel : Nat) (caps : Caps), s.length < fuel →
      (∀ c ∈ s, c ≠ '\n') →
      starAux (fun t c => reMatches REany t c) false fuel s caps =
        s.tails.map (fun s2 => (caps, s2)) := by
  intro s
  induction s with
  | nil =>
    intro fuel caps hf _
    match fuel, hf with
    | f + 1, _ => simp [starAux, reMatches, REany]
  | cons c rest ih =>
    intro fuel caps hf hnl
    match fuel, hf with
    | f + 1, hf =>
      have hr : ∀ x ∈ rest, x ≠ '\n' := fun x hx => hnl x (by simp [hx])
      have hlen : rest.length < f := by
        have h2 := Nat.lt_of_succ_lt_succ hf
        simpa using h2
      rw [List.tails_cons]
      simp only [starAux, Bool.false_eq_true, if_false]
      rw [show reMatches REany (c :: rest) caps = [(caps, rest)] from
        reMatches_any_cons c rest caps (hnl c (by simp))]
      simp only [List.flatMap_cons, List.flatMap_nil, List.append_nil,
        List.length_cons, Nat.lt_succ_self, if_true, ih f caps hlen hr, List.map_cons]
theorem tails_flatMap_skip {β : Type} (v : List Char)
    (F : List Char → List β) :
    ∀ u : List Char, (∀ u2, u2 ≠ [] → u2 <:+ u → F (u2 ++ v) = []) →
      (u ++ v).tails.flatMap F = v.tails.flatMap F := by
  intro u
  induction u with
  | nil => intro _; rfl
  | cons c rest ih =>
    intro hfail
    rw [List.cons_append, List.tails_cons, List.flatMap_cons]
    rw [show c :: (rest ++ v) = (c :: rest) ++ v from rfl,
        hfail (c :: rest) (by simp) (List.suffix_refl _), List.nil_append]
    exact ih fun u2 hne hsuf => hfail u2 hne (hsuf.trans (List.suffix_cons c rest))

theorem starAux_cls_greedy (p : Char → Bool) :
    ∀ (u : List Char) (rest : List Char) (fuel : Nat) (caps : Caps),
      (∀ c ∈ u, p c = true) →
      (∀ c, rest.head? = some c → p c = false) →
      (u ++ rest).length < fuel →
      ∃ junk, starAux (fun t cp => reMatches (.cls p) t cp) true fuel
          (u ++ rest) caps = (caps, rest) :: junk := by
  intro u
  induction u with
  | nil =>
    intro rest fuel caps _ hrest hf
    match fuel, hf with
    | f + 1, _ =>
      cases rest with
      | nil => exact ⟨[], by simp [starAux, reMatches]⟩
      | cons c rest2 =>
        have hc : p c = false := hrest c rfl
        exact ⟨[], by simp [starAux, reMatches, hc]⟩
  | cons c u2 ih =>
    intro rest fuel caps hu hrest hf
    match fuel, hf with
    | f + 1, hf =>
      have hc : p c = true := hu c (by simp)
      have hu2 : ∀ x ∈ u2, p x = true := fun x hx => hu x (by simp [hx])
      have hlen : (u2 ++ rest).length < f := by
        have h2 := Nat.lt_of_succ_lt_succ (by simpa using hf)
        simpa using h2
      obtain ⟨junk, hj⟩ := ih rest f caps hu2 hrest hlen
      refine ⟨junk ++ [(caps, (c :: u2) ++ rest)], ?_⟩
      simp only [List.cons_append, starAux, if_true]
      rw [show reMatches (.cls p) (c :: (u2 ++ rest)) caps = [(caps, u2 ++ rest)] by
        simp [reMatches, hc]]
      simp only [List.flatMap_cons, List.flatMap_nil, List.append_nil,
        List.length_cons, Nat.lt_succ_self, if_true, hj]
      rfl
theorem reMatches_star (g : Bool) (r : RE) (s : List Char) (caps : Caps) :
    reMatches (.star g r) s caps =
      starAux (fun t c => reMatches r t c) g (s.length + 1) s caps := rfl

theorem tocP1Rest_fail (c : Char) (s : List Char) (caps : Caps) (hc : c ≠ '.') :
    reMatches tocP1Rest (c :: s) caps = [] := by
  have e : tocP1Rest = .seq (.seq (REc '.') (.seq (REc '.') (.star true (REc '.'))))
      (.seq (.group "page" (REplus REd)) (.seq .eol .eps)) := rfl
  rw [e, reMatches_seq, reMatches_seq]
  rw [show reMatches (REc '.') (c :: s) caps = [] by simp [REc, reMatches, hc]]
  rfl

theorem plusd_all_head (pg : List Char) (d : Char) (caps : Caps)
    (hd : d.isDigit = true) (hall : ∀ c ∈ pg, c.isDigit = true) :
    ∃ junk, reMatches (REplus REd) (d :: pg) caps = (caps, ([] : List Char)) :: junk := by
  obtain ⟨junk, hj⟩ := starAux_cls_greedy Char.isDigit pg [] (pg.length + 1) caps
    hall (by intro c h; cases h) (by simp)
  simp only [List.append_nil] at hj
  refine ⟨junk, ?_⟩
  rw [show (REplus REd) = .seq (.cls Char.isDigit) (.star true (.cls Char.isDigit)) from rfl]
  rw [reMatches_seq]
  rw [show reMatches (.cls Char.isDigit) (d :: pg) caps = [(caps, pg)] by
    simp [reMatches, hd]]
  simp only [List.flatMap_cons, List.flatMap_nil, List.append_nil]
  rw [reMatches_star, hj]

theorem exists_cons_of_head {α : Type} {L : List α} {x : α} (h : L.head? = some x) :
    ∃ t, L = x :: t := by
  cases L with
  | nil => simp at h
  | cons a l =>
    simp only [List.head?_cons, Option.some.injEq] at h
    exact ⟨l, by rw [h]⟩

theorem pageG_head (pg : List Char) (caps : Caps) (hne : pg ≠ [])
    (hall : ∀ c ∈ pg, c.isDigit = true) :
    ∃ junk, reMatches (.group "page" (REplus REd)) pg caps =
      (("page", (⟨pg⟩ : String)) :: caps, ([] : List Char)) :: junk := by
  match pg, hne, hall with
  | d :: pg2, _, hall =>
    obtain ⟨junk, hj⟩ := plusd_all_head pg2 d caps (hall d (by simp))
      (fun c hc => hall c (by simp [hc]))
    apply exists_cons_of_head
    rw [reMatches_group, hj, List.map_cons]
    simp [List.take_length]

theorem dots_head (k2 : Nat) (pg : List Char) (d : Char) (caps : Caps)
    (hd : d.isDigit = true) :
    ∃ junk, reMatches (REatLeast 2 (REc '.'))
        (List.replicate (k2 + 2) '.' ++ (d :: pg)) caps = (caps, d :: pg) :: junk := by
  obtain ⟨junk, hj⟩ := starAux_cls_greedy (fun c => decide (c = '.'))
    (List.replicate k2 '.') (d :: pg)
    ((List.replicate k2 '.' ++ (d :: pg)).length + 1) caps
    (fun c hc => by simp [List.eq_of_mem_replicate hc])
    (fun c h => by cases h; simp [digit_ne_dot d hd]) (by simp)
  refine ⟨junk, ?_⟩
  rw [show REatLeast 2 (REc '.') =
      .seq (REc '.') (.seq (REc '.') (.star true (REc '.'))) from rfl]
  rw [show List.replicate (k2 + 2) '.' ++ (d :: pg) =
      '.' :: ('.' :: (List.replicate k2 '.' ++ (d :: pg))) by
    simp [List.replicate_succ]]
  rw [reMatches_seq]
  rw [show reMatches (REc '.') ('.' :: ('.' :: (List.replicate k2 '.' ++ (d :: pg)))) caps =
      [(caps, '.' :: (List.replicate k2 '.' ++ (d :: pg)))] by simp [REc, reMatches]]
  simp only [List.flatMap_cons, List.flatMap_nil, List.append_nil]
  rw [reMatches_seq]
  rw [show reMatches (REc '.') ('.' :: (List.replicate k2 '.' ++ (d :: pg))) caps =
      [(caps, List.replicate k2 '.' ++ (d :: pg))] by simp [REc, reMatches]]
  simp only [List.flatMap_cons, List.flatMap_nil, List.append_nil]
  rw [reMatches_star]
  simp only [REc]
  rw [hj]

theorem tocP1Rest_success (k2 : Nat) (pg : List Char) (caps : Caps)
    (hne : pg ≠ []) (hall : ∀ c ∈ pg, c.isDigit = true) :
    ∃ junk, reMatches tocP1Rest (List.replicate (k2 + 2) '.' ++ pg) caps =
      (("page", (⟨pg⟩ : String)) :: caps, ([] : List Char)) :: junk := by
  match pg, hne, hall with
  | d :: pg2, _, hall =>
    obtain ⟨j1, h1⟩ := dots_head k2 pg2 d caps (hall d (by simp))
    obtain ⟨j2, h2⟩ := pageG_head (d :: pg2) caps (by simp) hall
    apply exists_cons_of_head
    rw [show tocP1Rest = .seq (REatLeast 2 (REc '.'))
        (.seq (.group "page" (REplus REd)) (.seq .eol .eps)) from rfl]
    rw [reMatches_seq, h1, List.flatMap_cons]
    rw [show (reMatches (.seq (.group "page" (REplus REd)) (.seq .eol .eps))
        ((caps, d :: pg2).2) ((caps, d :: pg2).1) : List (Caps × List Char)) =
      (reMatches (.group "page" (REplus REd)) (d :: pg2) caps).flatMap
        (fun p => reMatches (.seq .eol .eps) p.2 p.1) from rfl]
    rw [h2, List.flatMap_cons]
    rw [show (reMatches (.seq .eol .eps)
        ((("page", (⟨d :: pg2⟩ : String)) :: caps, ([] : List Char)).2)
        ((("page", (⟨d :: pg2⟩ : String)) :: caps, ([] : List Char)).1) :
        List (Caps × List Char)) =
      [(("page", (⟨d :: pg2⟩ : String)) :: caps, ([] : List Char))] from rfl]
    rw [List.cons_append, List.cons_append]
    rfl
theorem pyStripL_indent (n : Nat) (t : List Char) (hne : t ≠ [])
    (hws : ∀ c ∈ t, pyWs c = false) :
    pyStripL (List.replicate n ' ' ++ t) = t := by
  have hr : pyRstripL (List.replicate n ' ' ++ t) = List.replicate n ' ' ++ t := by
    unfold pyRstripL
    cases ht : t.reverse with
    | nil =>
      exact absurd (by simpa using congrArg List.reverse ht) hne
    | cons c r =>
      have hc : pyWs c = false := by
        have hmem : c ∈ t.reverse := by rw [ht]; simp
        exact hws c (by simpa using hmem)
      rw [List.reverse_append, ht, List.cons_append, List.dropWhile_cons, hc]
      have ht2 : t = r.reverse ++ [c] := by simpa using congrArg List.reverse ht
      simp [ht2]
  rw [pyStripL, hr]
  unfold pyLstripL
  clear hr
  induction n with
  | zero => simpa using dropWhile_eq_self_of_all pyWs t hws
  | succ m ih =>
    rw [List.replicate_succ, List.cons_append, List.dropWhile_cons]
    simp only [show pyWs ' ' = true from rfl, if_true]
    exact ih
theorem tocPat1_indent_matches (n k2 : Nat) (t pg : List Char)
    (ht : t ≠ []) (hpg : pg ≠ [])
    (htc : ∀ c ∈ t, c ≠ '.' ∧ pyWs c = false)
    (hpgd : ∀ c ∈ pg, c.isDigit = true) :
    ∃ junk, reMatches tocPat1
        ((List.replicate (n + 2) ' ' ++ t) ++ (List.replicate (k2 + 2) '.' ++ pg)) [] =
      (([("page", (⟨pg⟩ : String)),
         ("title", (⟨List.replicate (n + 2) ' ' ++ t⟩ : String))] : Caps),
       ([] : List Char)) :: junk := by
  have hnl : ∀ c ∈ (List.replicate (n + 2) ' ' ++ t) ++
      (List.replicate (k2 + 2) '.' ++ pg), c ≠ '\n' := by
    intro c hc
    simp only [List.mem_append] at hc
    rcases hc with (hc | hc) | (hc | hc)
    · rw [List.eq_of_mem_replicate hc]; decide
    · exact ws_ne_nl c (htc c hc).2
    · rw [List.eq_of_mem_replicate hc]; decide
    · exact digit_ne_nl c (hpgd c hc)
  have hhead : ((List.replicate (n + 2) ' ' ++ t) ++
      (List.replicate (k2 + 2) '.' ++ pg)) =
      ' ' :: ((List.replicate (n + 1) ' ' ++ t) ++
        (List.replicate (k2 + 2) '.' ++ pg)) := by
    simp [List.replicate_succ]
  apply exists_cons_of_head
  rw [tocPat1_decomp, reMatches_seq, hhead,
    tocPat1_opt_ws ' ' _ [] (by decide), ← hhead]
  simp only [List.flatMap_cons, List.flatMap_nil, List.append_nil]
  rw [reMatches_seq, reMatches_group,
    show REanyLazy = .star false REany from rfl, reMatches_star,
    starAux_any_lazy _ _ [] (by simp) hnl, List.map_map, List.flatMap_map]
  simp only [Function.comp_apply]
  have hskip := tails_flatMap_skip (List.replicate (k2 + 2) '.' ++ pg)
    (fun a => reMatches tocP1Rest a
      [("title", (⟨List.take
        ((List.replicate (n + 2) ' ' ++ t ++ (List.replicate (k2 + 2) '.' ++ pg)).length -
          a.length)
        (List.replicate (n + 2) ' ' ++ t ++ (List.replicate (k2 + 2) '.' ++ pg))⟩ : String))])
    (List.replicate (n + 2) ' ' ++ t) ?cond
  case cond =>
    intro u2 hne2 hsuf
    match u2, hne2 with
    | c :: u2', _ =>
      have hcm : c ∈ List.replicate (n + 2) ' ' ++ t := hsuf.subset (by simp)
      have hcd : c ≠ '.' := by
        rcases List.mem_append.mp hcm with hc | hc
        · rw [List.eq_of_mem_replicate hc]; decide
        · exact (htc c hc).1
      show reMatches tocP1Rest (c :: u2' ++ (List.replicate (k2 + 2) '.' ++ pg)) _ = []
      rw [List.cons_append]
      exact tocP1Rest_fail c _ _ hcd
  rw [hskip]
  have hv : (List.replicate (k2 + 2) '.' ++ pg).tails =
      (List.replicate (k2 + 2) '.' ++ pg) :: (List.replicate (k2 + 1) '.' ++ pg).tails := by
    rw [show List.replicate (k2 + 2) '.' ++ pg =
      '.' :: (List.replicate (k2 + 1) '.' ++ pg) by simp [List.replicate_succ]]
    exact List.tails_cons _ _
  rw [hv, List.flatMap_cons]
  have hcap : List.take
      ((List.replicate (n + 2) ' ' ++ t ++ (List.replicate (k2 + 2) '.' ++ pg)).length -
        (List.replicate (k2 + 2) '.' ++ pg).length)
      (List.replicate (n + 2) ' ' ++ t ++ (List.replicate (k2 + 2) '.' ++ pg)) =
      List.replicate (n + 2) ' ' ++ t := by
    have hlen : (List.replicate (n + 2) ' ' ++ t ++
        (List.replicate (k2 + 2) '.' ++ pg)).length -
        (List.replicate (k2 + 2) '.' ++ pg).length =
        (List.replicate (n + 2) ' ' ++ t).length := by simp; omega
    rw [hlen]
    exact List.take_left _ _
  rw [hcap]
  obtain ⟨j2, h2⟩ := tocP1Rest_success k2 pg
    [("title", (⟨List.replicate (n + 2) ' ' ++ t⟩ : String))] hpg hpgd
  rw [h2, List.cons_append]
  rfl
theorem tocPat1_indent_reMatch (n k2 : Nat) (t pg : List Char)
    (ht : t ≠ []) (hpg : pg ≠ [])
    (htc : ∀ c ∈ t, c ≠ '.' ∧ pyWs c = false)
    (hpgd : ∀ c ∈ pg, c.isDigit = true) :
    reMatch tocPat1
        (⟨(List.replicate (n + 2) ' ' ++ t) ++ (List.replicate (k2 + 2) '.' ++ pg)⟩ : String) =
      some [("page", (⟨pg⟩ : String)),
            ("title", (⟨List.replicate (n + 2) ' ' ++ t⟩ : String))] := by
  obtain ⟨j, hj⟩ := tocPat1_indent_matches n k2 t pg ht hpg htc hpgd
  show ((reMatches tocPat1
      ((List.replicate (n + 2) ' ' ++ t) ++ (List.replicate (k2 + 2) '.' ++ pg)) []).head?).map
        Prod.fst = _
  rw [hj]
  rfl
theorem parseTocLine_indented (n k2 : Nat) (t pg : List Char)
    (ht : t ≠ []) (hpg : pg ≠ [])
    (htc : ∀ c ∈ t, c ≠ '.' ∧ pyWs c = false)
    (hpgd : ∀ c ∈ pg, c.isDigit = true) :
    parseTocLine
        (⟨(List.replicate (n + 2) ' ' ++ t) ++ (List.replicate (k2 + 2) '.' ++ pg)⟩ : String) =
      some ⟨0, (⟨t⟩ : String), some ((digitsVal pg : Nat) : Int),
        (⟨(List.replicate (n + 2) ' ' ++ t) ++ (List.replicate (k2 + 2) '.' ++ pg)⟩ : String)⟩ := by
  have hm := tocPat1_indent_reMatch n k2 t pg ht hpg htc hpgd
  have hst : pyStrip (⟨List.replicate (n + 2) ' ' ++ t⟩ : String) = (⟨t⟩ : String) :=
    congrArg String.mk (pyStripL_indent (n + 2) t ht (fun c hc => (htc c hc).2))
  have hst2 : pyStrip (⟨t⟩ : String) = (⟨t⟩ : String) :=
    congrArg String.mk (pyStripL_eq_self t (fun c hc => (htc c hc).2))
  have hpi : pyInt (⟨pg⟩ : String) = some ((digitsVal pg : Nat) : Int) :=
    pyInt_digits pg hpg (List.all_eq_true.mpr hpgd)
  have htne : pyStrip (⟨List.replicate (n + 2) ' ' ++ t⟩ : String) ≠ "" := by
    rw [hst]
    intro he
    exact ht (congrArg String.data he)
  have hent : tocEntryOfMatch
      (⟨(List.replicate (n + 2) ' ' ++ t) ++ (List.replicate (k2 + 2) '.' ++ pg)⟩ : String)
      [("page", (⟨pg⟩ : String)),
       ("title", (⟨List.replicate (n + 2) ' ' ++ t⟩ : String))] =
      some ⟨0, (⟨t⟩ : String), some ((digitsVal pg : Nat) : Int),
        (⟨(List.replicate (n + 2) ' ' ++ t) ++ (List.replicate (k2 + 2) '.' ++ pg)⟩ : String)⟩ := by
    show (if pyStrip (⟨List.replicate (n + 2) ' ' ++ t⟩ : String) ≠ "" then
        some (mkTOCEntry 0 (pyStrip (⟨List.replicate (n + 2) ' ' ++ t⟩ : String))
          (pyInt (⟨pg⟩ : String))
          (⟨(List.replicate (n + 2) ' ' ++ t) ++ (List.replicate (k2 + 2) '.' ++ pg)⟩ : String))
      else none) = _
    rw [if_pos htne, hst, hpi]
    simp only [mkTOCEntry]
    rw [hst2]
  simp only [parseTocLine, tocPatterns, List.foldl_cons, List.foldl_nil]
  rw [hm]
  simp only []
  rw [hent]
theorem tocEntryOfMatch_prefix_level (line : String) (caps : Caps) (pfx : String)
    (e : TOCEntry) (hp : capGet caps "prefix" = some pfx) (hne : pfx ≠ "")
    (hm : tocEntryOfMatch line caps = some e) :
    e.level = if pyCountChar (pyStrip pfx) '.' = 0 ∧ pyStrip pfx ≠ "" then 1
              else pyCountChar (pyStrip pfx) '.' := by
  simp only [tocEntryOfMatch, hp, Option.getD_some, ne_eq, hne, not_false_eq_true,
    if_true, ite_not] at hm
  split at hm
  · exact absurd hm (by simp)
  · have he := Option.some.inj hm
    rw [← he]
    simp [mkTOCEntry]
/-- C9 amended: for every line made of at least two leading spaces, a
non-empty title containing no dot and no whitespace, a run of at least
two dots and a non-empty trailing digit run, the classic dotted pattern
(pattern 1) matches first with its optional prefix group absent and the
leading indentation absorbed into the lazy title group, so the line is
never classified via an indentation pattern ("indent" is not captured)
and `_parse_toc_line` assigns it level 0 regardless of the indentation
width; and in general any line whose match carries a non-empty "prefix"
group gets level = number of dots in the stripped prefix, or 1 when the
stripped prefix is dotless but non-empty (illustrated on three concrete
prefixed lines). -/
theorem c9_amended :
    (∀ (n k : Nat) (t pg : List Char),
      t ≠ [] → pg ≠ [] →
      (∀ c ∈ t, c ≠ '.' ∧ pyWs c = false) →
      (∀ c ∈ pg, c.isDigit = true) →
      reMatch tocPat1
          (⟨(List.replicate (n + 2) ' ' ++ t) ++ (List.replicate (k + 2) '.' ++ pg)⟩ : String) =
        some [("page", (⟨pg⟩ : String)),
              ("title", (⟨List.replicate (n + 2) ' ' ++ t⟩ : String))] ∧
      parseTocLine
          (⟨(List.replicate (n + 2) ' ' ++ t) ++ (List.replicate (k + 2) '.' ++ pg)⟩ : String) =
        some ⟨0, (⟨t⟩ : String), some ((digitsVal pg : Nat) : Int),
          (⟨(List.replicate (n + 2) ' ' ++ t) ++ (List.replicate (k + 2) '.' ++ pg)⟩ : String)⟩) ∧
    (∀ (line : String) (caps : Caps) (pfx : String) (e : TOCEntry),
      capGet caps "prefix" = some pfx → pfx ≠ "" →
      tocEntryOfMatch line caps = some e →
      e.level = if pyCountChar (pyStrip pfx) '.' = 0 ∧ pyStrip pfx ≠ "" then 1
                else pyCountChar (pyStrip pfx) '.') ∧
    parseTocLine "1. Alpha....10" = some ⟨1, "Alpha", some 10, "1. Alpha....10"⟩ ∧
    parseTocLine "1.2. Alpha....10" = some ⟨2, "Alpha", some 10, "1.2. Alpha....10"⟩ ∧
    parseTocLine "Chapter 1 Overview 12" =
      some ⟨1, "Overview", some 12, "Chapter 1 Overview 12"⟩ := by
  refine ⟨?_, tocEntryOfMatch_prefix_level, by decide, by decide, by decide⟩
  intro n k t pg ht hpg htc hpgd
  exact ⟨tocPat1_indent_reMatch n k t pg ht hpg htc hpgd,
         parseTocLine_indented n k t pg ht hpg htc hpgd⟩

/-- C9 witness: the universal parts instantiated at "  Intro..7"
(indent 2, title Intro, 2 dots, page 7, classified at level 0) and at a
match whose prefix "1. " yields level 1. -/
theorem c9_amended_witness :
    parseTocLine (⟨(List.replicate (0 + 2) ' ' ++ ['I', 'n', 't', 'r', 'o']) ++
        (List.replicate (0 + 2) '.' ++ ['7'])⟩ : String) =
      some ⟨0, (⟨['I', 'n', 't', 'r', 'o']⟩ : String),
        some ((digitsVal ['7'] : Nat) : Int),
        (⟨(List.replicate (0 + 2) ' ' ++ ['I', 'n', 't', 'r', 'o']) ++
          (List.replicate (0 + 2) '.' ++ ['7'])⟩ : String)⟩ ∧
    (⟨1, "Alpha", some 10, "x"⟩ : TOCEntry).level =
      (if pyCountChar (pyStrip "1. ") '.' = 0 ∧ pyStrip "1. " ≠ "" then 1
       else pyCountChar (pyStrip "1. ") '.') :=
  ⟨(c9_amended.1 0 0 ['I', 'n', 't', 'r', 'o'] ['7'] (by decide) (by decide)
      (by decide) (by decide)).2,
   c9_amended.2.1 "x" [("prefix", "1. "), ("title", " Alpha"), ("page", "10")] "1. "
     ⟨1, "Alpha", some 10, "x"⟩ (by decide) (by decide) (by decide)⟩

end PdfExtract
